import Mathlib

/-!
Verification development for the per-node consensus agent in
src/src/subnet/substrate/consensus.py (class Consensus).

The Python source is embedded shallowly:

* pure fragments become Lean functions;
* the mutable fields of the Consensus object become an explicit AgentState
  record threaded through step functions;
* the blockchain is a Chain record; extrinsics and the submissions of other
  agents act on it as monotone ChainOp operations (on-chain reward
  submissions are never removed, attestations only accumulate);
* everything else observed from the chain or from the DHT scoring probe
  (block heights, validator choice, receipt outcomes, freshly produced
  score sets) is adversarial input, supplied per loop iteration;
* Python code that can raise returns Except PyErr.

Helper modules of the repository that are not available
(subnet/substrate/chain_functions.py, subnet/substrate/utils.py,
subnet/substrate/config.py, subnet/substrate/chain_data.py) are modelled
from the specification where the embedding needs them; every such
definition carries a comment saying so.
-/

set_option maxRecDepth 8000

/-- Account identifier on chain; an opaque byte string in the source,
modelled as a natural number with decidable equality. -/
abbrev AccountId := Nat

/-- One peer's score record for an epoch.  The source canonicalizes decoded
records to frozenset(asdict(d).items()) and own records to
frozenset(d.items()); both are the record's full field tuple, so the
canonical form is modelled as the record itself (spec: ScoreRecord with
peer_id plus numeric fields, hashable and equality-comparable bit-exactly). -/
structure Rec where
  peer_id : Nat
  score : Nat
deriving DecidableEq

/-- Modelled from the spec: BLOCK_SECS is the chain block-time constant from
subnet/substrate/config.py (not under src/); the spec's end-to-end scenarios
use 6.  The theorems only use it symbolically. -/
def BLOCK_SECS : Nat := 6

/-- MAX_ATTEST_CHECKS from consensus.py line 20. -/
def MAX_ATTEST_CHECKS : Nat := 3

/-- AttestReason enum from consensus.py lines 22-26. -/
inductive AttestReason where
  | WAITING
  | ATTESTED
  | ATTEST_FAILED
  | SHOULD_NOT_ATTEST
deriving DecidableEq

/-- Python exception kinds the embedding distinguishes. -/
inductive PyErr where
  | typeError
  | chainError
deriving DecidableEq

/-- Extrinsic receipt as far as the core reads it (spec section 4.1:
a Receipt carries is_success). -/
structure Receipt where
  is_success : Bool
deriving DecidableEq

/-- Python try/except: run the body; a raised exception is given to the
handler, a normal value passes through. -/
def pyTryCatch (body : Except PyErr α) (handler : PyErr → α) : α :=
  match body with
  | .ok a => a
  | .error e => handler e

/-- Consensus._do_validate (consensus.py lines 287-298): submit the validate
extrinsic (the chain call may raise, modelled by the Except argument), return
receipt.is_success, and return False on any exception. -/
def doValidate (call : Except PyErr Receipt) : Bool :=
  pyTryCatch (call.map Receipt.is_success) fun _ => false

/-- Consensus._do_attest (consensus.py lines 300-310): same shape as
_do_validate for the attest extrinsic. -/
def doAttest (call : Except PyErr Receipt) : Bool :=
  pyTryCatch (call.map Receipt.is_success) fun _ => false

/-- Consensus._has_attested (consensus.py lines 331-336): scan the attests
list of a validator submission for our account in the first tuple slot. -/
def hasAttested (account : AccountId) (attestations : List (AccountId × Nat)) : Bool :=
  attestations.any fun data => decide (data.1 = account)

/-- A validator's on-chain reward submission for one (subnet, epoch)
(spec section 3, ValidatorSubmission): the published score records plus the
accumulating attests list.  get_rewards_submission (chain_functions.py, not
under src/) returns this shape. -/
structure RawSubmission where
  data : List Rec
  attests : List (AccountId × Nat)
deriving DecidableEq

/-- On-chain state the consensus loop reads back: the reward submission per
epoch.  (The per-epoch validator choice is chain-decided and never written by
the agent, so it stays adversarial per-iteration input.) -/
structure Chain where
  submission : Nat → Option RawSubmission

/-- Monotone operations on the chain: some validator publishes a submission
for an epoch (only if none is present - the pallet keeps the first), or some
account attests an existing submission.  Both our own extrinsics and the
interference of other agents are expressed with these, which is what makes
on-chain submissions persistent. -/
inductive ChainOp where
  | submitOp (epoch : Nat) (data : List Rec)
  | attestOp (epoch : Nat) (account : AccountId)
deriving DecidableEq

/-- Apply one chain operation. -/
def applyOp (ch : Chain) : ChainOp → Chain
  | .submitOp e d =>
    match ch.submission e with
    | none => ⟨fun e' => if e' = e then some ⟨d, []⟩ else ch.submission e'⟩
    | some _ => ch
  | .attestOp e a =>
    match ch.submission e with
    | none => ch
    | some s => ⟨fun e' => if e' = e then some ⟨s.data, (a, 0) :: s.attests⟩ else ch.submission e'⟩

/-- Apply a batch of interference operations. -/
def applyOps (ch : Chain) (ops : List ChainOp) : Chain :=
  ops.foldl applyOp ch

/-- Epoch computation of the data model: floor(block / epoch_length) by exact
integer division (spec section 3).  The loop body writes
int(block_number / self.epoch_length), whose faithful CPython semantics go
through binary64 true division; pyIntTrueDiv below models that and the C9
analysis records where the two disagree.  The loop embedding uses the exact
form. -/
def epochOf (epochLength block : Nat) : Nat :=
  block / epochLength

/-- Fuelled base-2 logarithm, floor(log2 n) for n ≥ 1; fuel bounds the
recursion depth and any fuel ≥ log2 n is enough. -/
def natLog2 : Nat → Nat → Nat
  | 0, _ => 0
  | f + 1, n => if 2 ≤ n then natLog2 f (n / 2) + 1 else 0

/-- Ceiling base-2 logarithm for n ≥ 1 via natLog2. -/
def natClog2 (n : Nat) : Nat :=
  if n ≤ 1 then 0 else natLog2 n (n - 1) + 1

/-- Round num/den to the nearest integer, ties to even. -/
def divRoundHalfEven (num den : Nat) : Nat :=
  let q := num / den
  let r := num % den
  if 2 * r < den then q
  else if den < 2 * r then q + 1
  else if q % 2 = 0 then q else q + 1

/-- CPython semantics of int(a / b) on non-negative ints: true division first
produces the binary64 double nearest to a/b (round to nearest, ties to even,
53-bit significand), then int() truncates toward zero.  Modelled for the
normal finite double range (no overflow to inf, no subnormal quotients),
which covers every chain block height.  a = 0 or b = 0 gives 0. -/
def pyIntTrueDiv (a b : Nat) : Nat :=
  if a = 0 ∨ b = 0 then 0
  else
    let e : Int := if b ≤ a then (natLog2 (a + 1) (a / b) : Int)
                   else -(natClog2 ((b + a - 1) / a) : Int)
    let num := a * 2 ^ (52 - e).toNat
    let den := b * 2 ^ (e - 52).toNat
    let m := divRoundHalfEven num den
    if 52 ≤ e then m * 2 ^ (e - 52).toNat else m / 2 ^ (52 - e).toNat

/-- The epoch value the source lines 77 and 184 actually compute:
int(block_number / epoch_length) through binary64 division. -/
def pyEpochOf (epochLength block : Nat) : Nat :=
  pyIntTrueDiv block epochLength

/-- Symmetric difference of two canonical score sets, as
set1.symmetric_difference(set2). -/
def symmDiffF (s1 s2 : Finset Rec) : Finset Rec :=
  (s1 \ s2) ∪ (s2 \ s1)

/-- Consensus.should_attest (consensus.py lines 482-528).

Arguments: prev is self.previous_epoch_data (the canonical set kept from the
last attempt, None on the agent's first comparison); fetchPrev is what
self._get_validator_consensus_submission(epoch-1) returns when the fallback
branch queries it; validator_data and my_data are the two score lists, both
already in canonical record form (the source builds
set(frozenset(asdict(d).items())) from the decoded validator records and
set(frozenset(d.items())) from its own dicts - both are the record field
tuple, i.e. Rec).

Result: ok (returned bool, the new previous_epoch_data) - or error.

The error case is faithful to lines 515-519: the fallback iterates the raw
submission object returned by get_rewards_submission (per the spec a mapping
with fields data and attests; line 265 shows the data list must first be
extracted and decoded through RewardsData.list_from_scale_info) and calls
dataclasses.asdict on each element of that mapping.  asdict on anything that
is not a dataclass instance raises TypeError, so whenever a previous-epoch
submission is found the branch raises instead of comparing, and
self.previous_epoch_data is not updated (line 526 is never reached). -/
def shouldAttest (prev : Option (Finset Rec)) (fetchPrev : Option RawSubmission)
    (validator_data my_data : List Rec) : Except PyErr (Bool × Option (Finset Rec)) :=
  if validator_data.length = 0 ∧ my_data.length = 0 then
    .ok (true, prev)
  else
    let set1 := validator_data.toFinset
    let set2 := my_data.toFinset
    if set1 = set2 then
      .ok (true, some set2)
    else
      match prev with
      | some p => .ok (decide (symmDiffF set1 set2 ⊆ p), some set2)
      | none =>
        match fetchPrev with
        | some _ => .error .typeError
        | none => .ok (false, some set2)

/-- The mutable fields of the Consensus object the loop reads or writes
(consensus.py lines 43-54; spec section 3, AgentState).  lastEpoch is
last_validated_or_attested_epoch, prevData is previous_epoch_data, stopped is
the threading stop event. -/
structure AgentState where
  acceptingConsensus : Bool
  nodeEligible : Bool
  subnetId : Option Nat
  lastEpoch : Nat
  prevData : Option (Finset Rec)
  stopped : Bool
deriving DecidableEq

/-- Fresh state after __init__ (consensus.py lines 39-64), which a process
restart re-establishes. -/
def initAgentState : AgentState :=
  ⟨false, false, none, 0, none, false⟩

/-- Events the embedding records: each extrinsic submission (with its receipt
outcome) and each completed attest(epoch) call with its returned pair.
activateTx records the block number, activation block and node index the
submitting invocation observed. -/
inductive Ev where
  | validateTx (epoch : Nat) (success : Bool)
  | attestTx (epoch : Nat) (success : Bool)
  | activateTx (block : Nat) (activationBlock : Nat) (n : Nat)
  | attestCall (epoch : Nat) (result : Bool) (reason : AttestReason)
deriving DecidableEq

/-- What self._get_validator_consensus_submission(epoch-1) returns inside the
should_attest fallback: the chain's submission for the previous epoch.
Modelled from the spec for epoch 0 (the Python query at epoch -1 finds no
submission). -/
def prevFetch (ch : Chain) (epoch : Nat) : Option RawSubmission :=
  if epoch = 0 then none else ch.submission (epoch - 1)

/-- Observations one iteration of the inner attest loop consumes: interference
ops landing on chain since the last look, the fetched block number, the score
set the probe produces (get_consensus_data, utils.py - modelled from the spec
as the probe's ScoreSet output), and the outcome of the attest chain call
should one be submitted. -/
structure InnerObs where
  ops : List ChainOp
  block : Nat
  myData : List Rec
  attestReceipt : Except PyErr Receipt

/-- Result of one Consensus.attest call. -/
structure ARes where
  res : Option (Bool × AttestReason)
  prev : Option (Finset Rec)
  ch : Chain
  evs : List Ev

/-- Consensus.attest (consensus.py lines 244-282).  Reads the validator's
submission for the epoch from chain; returns (False, WAITING) when absent,
(False, ATTESTED) when our account already appears in its attests list,
otherwise decodes the data (RewardsData.list_from_scale_info, chain_data.py
outside src/, modelled as the identity on the typed records of the spec's
ValidatorSubmission), produces its own score set and runs should_attest; on a
positive answer submits the attest extrinsic.  res = none is a raised
exception escaping the call (the should_attest fallback TypeError). -/
def attestStep (account : AccountId) (ch : Chain) (epoch : Nat) (o : InnerObs)
    (prev : Option (Finset Rec)) : ARes :=
  match ch.submission epoch with
  | none => ⟨some (false, .WAITING), prev, ch, []⟩
  | some sub =>
    if hasAttested account sub.attests then
      ⟨some (false, .ATTESTED), prev, ch, []⟩
    else
      match shouldAttest prev (prevFetch ch epoch) sub.data o.myData with
      | .error _ => ⟨none, prev, ch, []⟩
      | .ok (sa, prev') =>
        if sa then
          if doAttest o.attestReceipt then
            ⟨some (true, .ATTESTED), prev', applyOp ch (.attestOp epoch account),
              [.attestTx epoch true]⟩
          else
            ⟨some (false, .ATTEST_FAILED), prev', ch, [.attestTx epoch false]⟩
        else
          ⟨some (false, .SHOULD_NOT_ATTEST), prev', ch, []⟩

/-- Why the inner attest loop of Consensus.run stopped. -/
inductive ExitCause where
  | rollover
  | maxChecks
  | attestedOk
  | attestedAlready
  | errored
  | streamEnd
deriving DecidableEq

/-- Result of the inner attest loop (and of one outer iteration). -/
structure InnerRes where
  st : AgentState
  ch : Chain
  evs : List Ev
  cause : ExitCause

/-- The inner attest loop of Consensus.run (consensus.py lines 175-229).
Each pass sleeps a block, refetches the block number (so the epoch), breaks
on epoch rollover or once attest_checks exceeds MAX_ATTEST_CHECKS, and
otherwise calls attest: a True result or an already-attested (False,
ATTESTED) result stores the epoch into last_validated_or_attested_epoch and
breaks; WAITING, ATTEST_FAILED and SHOULD_NOT_ATTEST increment attest_checks
and continue (SHOULD_NOT_ATTEST merely sleeps longer).  A raised exception
unwinds to the try/except of run (line 230), aborting the iteration.
streamEnd marks exhaustion of the supplied observations. -/
def innerAttestLoop (account epochLength : Nat) (initialEpoch : Nat) :
    Nat → AgentState → Chain → List InnerObs → InnerRes
  | _, st, ch, [] => ⟨st, ch, [], .streamEnd⟩
  | checks, st, ch, o :: rest =>
    let ch1 := applyOps ch o.ops
    let epoch := epochOf epochLength o.block
    if initialEpoch < epoch then ⟨st, ch1, [], .rollover⟩
    else if MAX_ATTEST_CHECKS < checks then ⟨st, ch1, [], .maxChecks⟩
    else
      let a := attestStep account ch1 epoch o st.prevData
      match a.res with
      | none => ⟨{st with prevData := a.prev}, a.ch, a.evs, .errored⟩
      | some (r, reason) =>
        let evIter := Ev.attestCall epoch r reason :: a.evs
        if r then
          ⟨{st with prevData := a.prev, lastEpoch := epoch}, a.ch, evIter, .attestedOk⟩
        else
          match reason with
          | .ATTESTED =>
            ⟨{st with prevData := a.prev, lastEpoch := epoch}, a.ch, evIter, .attestedAlready⟩
          | _ =>
            let k := innerAttestLoop account epochLength initialEpoch (checks + 1)
              {st with prevData := a.prev} a.ch rest
            ⟨k.st, k.ch, evIter ++ k.evs, k.cause⟩

/-- On-chain subnet lifecycle data as read by _activate_subnet
(get_subnet_data, chain_functions.py outside src/; spec section 3,
SubnetStatus). -/
structure SubnetData where
  initialized : Nat
  registration_blocks : Nat
  activated : Nat
deriving DecidableEq

/-- Receipt of the activate_subnet extrinsic: is_success plus whether the
triggered events contain a SubnetActivated event. -/
structure ActReceipt where
  is_success : Bool
  activatedEvent : Bool
deriving DecidableEq

/-- Observations one invocation of _activate_subnet consumes: the subnet id
lookup (none models result_found false), the subnet data lookup, the
submittable-nodes list, the fetched block number, the re-read subnet data
inside the activation window, and the extrinsic receipt (None possible,
line 452). -/
structure ActEnv where
  subnetIdRes : Option Nat
  subnetDataRes : Option SubnetData
  submittable : List AccountId
  block : Nat
  subnetDataReread : SubnetData
  receipt : Option ActReceipt

/-- The node-index loop of _activate_subnet (consensus.py lines 394-399):
n counts entries until our account is found (then break), ending at the
1-based index when present and at the list length when absent; the flag is
the submittable local. -/
def countIndex (l : List AccountId) (account : AccountId) : Nat × Bool :=
  match l with
  | [] => (0, false)
  | x :: xs =>
    if x = account then (1, true)
    else
      let p := countIndex xs account
      (p.1 + 1, p.2)

/-- Result of _activate_subnet: updated state, returned bool, emitted events,
and the observations not yet consumed (recursive retries consume them in call
order). -/
structure ActRes where
  st : AgentState
  ok : Bool
  evs : List Ev
  rem : List ActEnv

/-- A conditional recursive retry inside _activate_subnet: when the condition
holds the source sleeps and calls itself (discarding the returned bool),
otherwise nothing happens; either way execution falls through to the rest of
the calling invocation. -/
def actRetry (recur : AgentState → List ActEnv → ActRes) (cond : Bool)
    (st : AgentState) (envs : List ActEnv) : ActRes :=
  if cond then recur st envs else ⟨st, false, [], envs⟩

/-- One invocation of Consensus._activate_subnet (consensus.py lines
346-480), with the self-recursion abstracted as recur.  Faithful to the
source's recursion without return: the calls at lines 405, 416 and 423
discard their result and fall through to the remainder of the caller with
its stale locals, so the guard at line 428 is re-evaluated against the
caller's own block number and node index. -/
def activateBody (account : AccountId) (recur : AgentState → List ActEnv → ActRes)
    (st : AgentState) (env : ActEnv) (rest : List ActEnv) : ActRes :=
  match env.subnetIdRes with
  | none => ⟨{st with stopped := true}, false, [], rest⟩
  | some sid =>
    match env.subnetDataRes with
    | none => ⟨{st with stopped := true}, false, [], rest⟩
    | some sd =>
      let activationBlock := sd.initialized + sd.registration_blocks
      if 0 < sd.activated then
        ⟨{st with acceptingConsensus := true, subnetId := some sid}, true, [], rest⟩
      else
        let p := countIndex env.submittable account
        let r1 := actRetry recur (!p.2) st rest
        let minB : Int := (activationBlock : Int) + (BLOCK_SECS : Int) * 10 * ((p.1 : Int) - 1)
        let maxB : Int := (activationBlock : Int) + (BLOCK_SECS : Int) * 10 * (p.1 : Int)
        let r2 := actRetry recur (decide ((env.block : Int) < minB)) r1.st r1.rem
        let r3 := actRetry recur (decide (maxB ≤ (env.block : Int))) r2.st r2.rem
        let evsPre := r1.evs ++ r2.evs ++ r3.evs
        if minB ≤ (env.block : Int) ∧ (env.block : Int) < maxB then
          if 0 < env.subnetDataReread.activated then
            ⟨{r3.st with acceptingConsensus := true, subnetId := some sid}, true, evsPre, r3.rem⟩
          else
            let ev := Ev.activateTx env.block activationBlock p.1
            match env.receipt with
            | none => ⟨r3.st, false, evsPre ++ [ev], r3.rem⟩
            | some rc =>
              if rc.is_success = true then
                if rc.activatedEvent then
                  ⟨{r3.st with acceptingConsensus := true, subnetId := some sid}, true,
                    evsPre ++ [ev], r3.rem⟩
                else ⟨r3.st, false, evsPre ++ [ev], r3.rem⟩
              else ⟨r3.st, false, evsPre ++ [ev], r3.rem⟩
        else ⟨r3.st, false, evsPre, r3.rem⟩

/-- Consensus._activate_subnet with the recursion tied: fuel cuts the
unbounded retry chain of the source (which would sleep and retry forever);
exhausted fuel or observations yield False with no events. -/
def activateSubnet (account : AccountId) : Nat → AgentState → List ActEnv → ActRes
  | 0, st, envs => ⟨st, false, [], envs⟩
  | _ + 1, st, [] => ⟨st, false, [], []⟩
  | fuel + 1, st, env :: rest => activateBody account (activateSubnet account fuel) st env rest

/-- Observations one outer iteration of Consensus.run consumes. -/
structure OuterEnv where
  ops : List ChainOp
  block : Nat
  validator : Option AccountId
  submittable : List AccountId
  myData : List Rec
  validateReceipt : Except PyErr Receipt
  inner : List InnerObs
  act : List ActEnv
  actFuel : Nat

/-- Result of one outer iteration / of a whole trace. -/
structure StepRes where
  st : AgentState
  ch : Chain
  evs : List Ev

/-- The eligibility refresh of Consensus.run (consensus.py lines 118-133):
while not yet eligible, scan the submittable-nodes list for our account. -/
def eligibilityUpdate (account : AccountId) (st : AgentState)
    (submittable : List AccountId) : AgentState :=
  if st.nodeEligible = false then
    if account ∈ submittable then {st with nodeEligible := true} else st
  else st

/-- The validator path of Consensus.run (consensus.py lines 148-169): if the
epoch's submission is already on chain the epoch merely completes, otherwise
consensus data is produced and the validate extrinsic submitted; only a
successful receipt completes the epoch. -/
def validatorBranch (epoch : Nat) (st1 : AgentState) (ch1 : Chain)
    (env : OuterEnv) : StepRes :=
  match ch1.submission epoch with
  | none =>
    if doValidate env.validateReceipt then
      ⟨{st1 with lastEpoch := epoch}, applyOp ch1 (.submitOp epoch env.myData),
        [.validateTx epoch true]⟩
    else ⟨st1, ch1, [.validateTx epoch false]⟩
  | some _ => ⟨{st1 with lastEpoch := epoch}, ch1, []⟩

/-- The role dispatch of Consensus.run (consensus.py lines 138-229): wait for
a validator to be chosen, then run the validator path or the inner attest
loop.  (epochLength is threaded to the inner loop's epoch recomputation.) -/
def roleBranch (account epochLength : Nat) (epoch : Nat) (st1 : AgentState) (ch1 : Chain)
    (env : OuterEnv) : StepRes :=
  match env.validator with
  | none => ⟨st1, ch1, []⟩
  | some v =>
    if v = account then validatorBranch epoch st1 ch1 env
    else
      let r := innerAttestLoop account epochLength epoch 0 st1 ch1 env.inner
      ⟨r.st, r.ch, r.evs⟩

/-- One iteration of the outer while of Consensus.run (consensus.py lines
70-231): fetch block and epoch (line 77); skip a completed epoch (line 87);
drive activation while the subnet does not accept consensus (lines 93-108);
establish eligibility from the submittable-nodes list (lines 118-133); then
dispatch on the validator role. -/
def consensusStep (account epochLength : Nat) (st : AgentState) (ch : Chain)
    (env : OuterEnv) : StepRes :=
  if st.stopped = true then ⟨st, ch, []⟩
  else
    let ch1 := applyOps ch env.ops
    let epoch := epochOf epochLength env.block
    if epoch ≤ st.lastEpoch ∧ st.acceptingConsensus = true then ⟨st, ch1, []⟩
    else if st.acceptingConsensus = false then
      let r := activateSubnet account env.actFuel st env.act
      ⟨r.st, ch1, r.evs⟩
    else
      let st1 := eligibilityUpdate account st env.submittable
      if st1.nodeEligible = false then ⟨st1, ch1, []⟩
      else roleBranch account epochLength epoch st1 ch1 env

/-- A step of a whole run: either one outer iteration, or a process restart,
which rebuilds the Consensus object (fresh in-memory state) while the chain
persists. -/
inductive TStep where
  | iter (env : OuterEnv)
  | restart

/-- A sequence of consensus-loop iterations, possibly interrupted by
restarts, with all emitted events in order. -/
def runTrace (account epochLength : Nat) : AgentState → Chain → List TStep → StepRes
  | st, ch, [] => ⟨st, ch, []⟩
  | _, ch, .restart :: rest => runTrace account epochLength initAgentState ch rest
  | st, ch, .iter env :: rest =>
    let r1 := consensusStep account epochLength st ch env
    let r2 := runTrace account epochLength r1.st r1.ch rest
    ⟨r2.st, r2.ch, r1.evs ++ r2.evs⟩

/-- Number of validate extrinsics submitted for epoch e, successful or not. -/
def validateTxCount (e : Nat) (evs : List Ev) : Nat :=
  (evs.filter fun ev => match ev with
    | .validateTx e' _ => decide (e' = e)
    | _ => false).length

/-- Number of successful validate extrinsics for epoch e. -/
def validateOkCount (e : Nat) (evs : List Ev) : Nat :=
  (evs.filter fun ev => decide (ev = .validateTx e true)).length

/-- Number of attest extrinsics submitted for epoch e, successful or not. -/
def attestTxCount (e : Nat) (evs : List Ev) : Nat :=
  (evs.filter fun ev => match ev with
    | .attestTx e' _ => decide (e' = e)
    | _ => false).length

/-- Number of successful attest extrinsics for epoch e. -/
def attestOkCount (e : Nat) (evs : List Ev) : Nat :=
  (evs.filter fun ev => decide (ev = .attestTx e true)).length

/-- Our account occurs in the submittable-nodes list first at 1-based
index n. -/
def firstIdxIs (l : List AccountId) (account : AccountId) (n : Nat) : Prop :=
  l[n - 1]? = some account ∧ 1 ≤ n ∧ ∀ k, k < n - 1 → l[k]? ≠ some account

/-- What one invocation of _activate_subnet observed at the point it
submitted the activate_subnet extrinsic: the recording invocation consumed
some env of the supplied list, read its subnet data, counted its node index,
and saw its block number inside the staggered window. -/
def staggerSpec (account : AccountId) (envs : List ActEnv) (b ab m : Nat) : Prop :=
  ∃ env ∈ envs, ∃ sd, env.subnetDataRes = some sd ∧
    ab = sd.initialized + sd.registration_blocks ∧
    m = (countIndex env.submittable account).1 ∧ b = env.block ∧
    (ab : Int) + (BLOCK_SECS : Int) * 10 * ((m : Int) - 1) ≤ (b : Int)

/-- A reward submission for epoch e is on chain. -/
def subPresent (ch : Chain) (e : Nat) : Prop :=
  ∃ s, ch.submission e = some s

/-- Our account is listed in the attests of the on-chain submission for
epoch e. -/
def selfAttested (account : AccountId) (ch : Chain) (e : Nat) : Prop :=
  ∃ s, ch.submission e = some s ∧ hasAttested account s.attests = true


/-- Chain with no submissions at all. -/
def chEmpty : Chain := ⟨fun _ => none⟩

/-- Chain holding exactly one submission, at epoch e. -/
def chSub (e : Nat) (s : RawSubmission) : Chain :=
  ⟨fun e' => if e' = e then some s else none⟩


/-- Helper: actRetry preserves last_validated_or_attested_epoch when the
recursive call does. -/
theorem actRetry_lastEpoch (recur : AgentState → List ActEnv → ActRes)
    (hrec : ∀ s es, (recur s es).st.lastEpoch = s.lastEpoch) :
    ∀ (cond : Bool) (s : AgentState) (es : List ActEnv),
    (actRetry recur cond s es).st.lastEpoch = s.lastEpoch := by
  intro cond s es
  unfold actRetry
  split_ifs with h
  · exact hrec s es
  · rfl

/-- Helper: one _activate_subnet invocation never touches
last_validated_or_attested_epoch. -/
theorem activateBody_lastEpoch (account : AccountId)
    (recur : AgentState → List ActEnv → ActRes)
    (hrec : ∀ s es, (recur s es).st.lastEpoch = s.lastEpoch) :
    ∀ (st : AgentState) (env : ActEnv) (rest : List ActEnv),
    (activateBody account recur st env rest).st.lastEpoch = st.lastEpoch := by
  intro st env rest
  unfold activateBody
  cases h1 : env.subnetIdRes with
  | none => rfl
  | some sid =>
    cases h2 : env.subnetDataRes with
    | none => rfl
    | some sd =>
      dsimp only
      split_ifs with ha hw hr
      · rfl
      · simp [actRetry_lastEpoch recur hrec]
      · cases env.receipt with
        | none => simp [actRetry_lastEpoch recur hrec]
        | some rc =>
          dsimp only
          split_ifs <;> simp [actRetry_lastEpoch recur hrec]
      · simp [actRetry_lastEpoch recur hrec]

/-- Helper: _activate_subnet never touches last_validated_or_attested_epoch. -/
theorem activateSubnet_lastEpoch (account : AccountId) :
    ∀ (fuel : Nat) (st : AgentState) (envs : List ActEnv),
    (activateSubnet account fuel st envs).st.lastEpoch = st.lastEpoch := by
  intro fuel
  induction fuel with
  | zero => intro st envs; rfl
  | succ f ih =>
    intro st envs
    cases envs with
    | nil => rfl
    | cons env rest =>
      exact activateBody_lastEpoch account _ (fun s es => ih s es) st env rest

/-- Helper: the inner attest loop never lowers
last_validated_or_attested_epoch, provided it starts below the initial epoch
and every refetched block stays in or after that epoch. -/
theorem innerAttestLoop_lastEpoch_mono (account epochLength initE : Nat) :
    ∀ (obs : List InnerObs) (checks : Nat) (st : AgentState) (ch : Chain),
    st.lastEpoch < initE →
    (∀ o ∈ obs, initE ≤ epochOf epochLength o.block) →
    st.lastEpoch ≤ (innerAttestLoop account epochLength initE checks st ch obs).st.lastEpoch := by
  intro obs
  induction obs with
  | nil => intro checks st ch _ _; exact le_refl _
  | cons o rest ih =>
    intro checks st ch hlt hobs
    rw [innerAttestLoop]
    dsimp only
    split_ifs with h1 h2
    · exact le_refl _
    · exact le_refl _
    · cases hres : (attestStep account (applyOps ch o.ops) (epochOf epochLength o.block) o st.prevData).res with
      | none => exact le_refl _
      | some p =>
        obtain ⟨r, reason⟩ := p
        dsimp only
        split_ifs with hr
        · exact le_of_lt (lt_of_lt_of_le hlt (hobs o (by simp)))
        · cases reason <;> dsimp only
          · exact ih (checks + 1)
              {st with prevData := (attestStep account (applyOps ch o.ops)
                (epochOf epochLength o.block) o st.prevData).prev} _ hlt
              (fun x hx => hobs x (by simp [hx]))
          · exact le_of_lt (lt_of_lt_of_le hlt (hobs o (by simp)))
          · exact ih (checks + 1)
              {st with prevData := (attestStep account (applyOps ch o.ops)
                (epochOf epochLength o.block) o st.prevData).prev} _ hlt
              (fun x hx => hobs x (by simp [hx]))
          · exact ih (checks + 1)
              {st with prevData := (attestStep account (applyOps ch o.ops)
                (epochOf epochLength o.block) o st.prevData).prev} _ hlt
              (fun x hx => hobs x (by simp [hx]))

/-- Helper: the validator path only ever writes an epoch at least as large as
the current value. -/
theorem validatorBranch_lastEpoch_mono (epoch : Nat) (st1 : AgentState)
    (ch1 : Chain) (env : OuterEnv) (h : st1.lastEpoch ≤ epoch) :
    st1.lastEpoch ≤ (validatorBranch epoch st1 ch1 env).st.lastEpoch := by
  unfold validatorBranch
  cases ch1.submission epoch with
  | none =>
    dsimp only
    split_ifs
    · exact h
    · exact le_refl _
  | some s => exact h


/-- Helper: one pass of the inner attest loop in which the validator's
submission is still absent adds a WAITING attempt, bumps attest_checks and
recurses. -/
theorem inner_waiting_step (account epochLength initE checks : Nat) (st : AgentState)
    (ch : Chain) (o : InnerObs) (rest : List InnerObs)
    (ho : o.ops = []) (he : epochOf epochLength o.block = initE)
    (hn : ch.submission initE = none) (hc : checks ≤ MAX_ATTEST_CHECKS) :
    innerAttestLoop account epochLength initE checks st ch (o :: rest) =
      ⟨(innerAttestLoop account epochLength initE (checks + 1) st ch rest).st,
       (innerAttestLoop account epochLength initE (checks + 1) st ch rest).ch,
       .attestCall initE false .WAITING ::
         (innerAttestLoop account epochLength initE (checks + 1) st ch rest).evs,
       (innerAttestLoop account epochLength initE (checks + 1) st ch rest).cause⟩ := by
  rw [innerAttestLoop]
  simp only [ho, applyOps, List.foldl_nil, he]
  rw [if_neg (lt_irrefl initE), if_neg (not_lt.mpr hc)]
  have hstep : attestStep account ch initE o st.prevData
      = ⟨some (false, .WAITING), st.prevData, ch, []⟩ := by
    unfold attestStep
    rw [hn]
  rw [hstep]
  rfl

theorem staggerSpec_sub (account : AccountId) (es es' : List ActEnv)
    (hsub : ∀ x ∈ es, x ∈ es') (b ab m : Nat)
    (h : staggerSpec account es b ab m) : staggerSpec account es' b ab m := by
  obtain ⟨env, hmem, hrest⟩ := h
  exact ⟨env, hsub env hmem, hrest⟩

theorem actRetry_rem_sub (recur : AgentState → List ActEnv → ActRes)
    (hrem : ∀ s es, ∀ x ∈ (recur s es).rem, x ∈ es) :
    ∀ (cond : Bool) (s : AgentState) (es : List ActEnv),
    ∀ x ∈ (actRetry recur cond s es).rem, x ∈ es := by
  intro cond s es x hx
  unfold actRetry at hx
  split_ifs at hx with h
  · exact hrem s es x hx
  · exact hx

theorem actRetry_stagger (account : AccountId) (recur : AgentState → List ActEnv → ActRes)
    (hevs : ∀ s es, ∀ b ab m, Ev.activateTx b ab m ∈ (recur s es).evs →
      staggerSpec account es b ab m) :
    ∀ (cond : Bool) (s : AgentState) (es : List ActEnv),
    ∀ b ab m, Ev.activateTx b ab m ∈ (actRetry recur cond s es).evs →
      staggerSpec account es b ab m := by
  intro cond s es b ab m hx
  unfold actRetry at hx
  split_ifs at hx with h
  · exact hevs s es b ab m hx
  · simp at hx

theorem activateBody_rem_sub (account : AccountId)
    (recur : AgentState → List ActEnv → ActRes)
    (hrem : ∀ s es, ∀ x ∈ (recur s es).rem, x ∈ es) :
    ∀ (st : AgentState) (env : ActEnv) (rest : List ActEnv),
    ∀ x ∈ (activateBody account recur st env rest).rem, x ∈ env :: rest := by
  have tri : ∀ (c1 c2 c3 : Bool) (s1 : AgentState) (es1 : List ActEnv) (x : ActEnv),
      x ∈ (actRetry recur c3
            (actRetry recur c2 (actRetry recur c1 s1 es1).st (actRetry recur c1 s1 es1).rem).st
            (actRetry recur c2 (actRetry recur c1 s1 es1).st (actRetry recur c1 s1 es1).rem).rem).rem →
      x ∈ es1 := by
    intro c1 c2 c3 s1 es1 x hx
    exact actRetry_rem_sub recur hrem _ _ _ x
      (actRetry_rem_sub recur hrem _ _ _ x (actRetry_rem_sub recur hrem _ _ _ x hx))
  intro st env rest x hx
  unfold activateBody at hx
  cases h1 : env.subnetIdRes with
  | none => rw [h1] at hx; exact List.mem_cons_of_mem env hx
  | some sid =>
    rw [h1] at hx
    cases h2 : env.subnetDataRes with
    | none => rw [h2] at hx; exact List.mem_cons_of_mem env hx
    | some sd =>
      rw [h2] at hx
      dsimp only at hx
      split_ifs at hx with ha hw hr
      · exact List.mem_cons_of_mem env hx
      · exact List.mem_cons_of_mem env (tri _ _ _ _ _ x hx)
      · cases hrc : env.receipt with
        | none =>
          rw [hrc] at hx
          exact List.mem_cons_of_mem env (tri _ _ _ _ _ x hx)
        | some rc =>
          rw [hrc] at hx
          dsimp only at hx
          split_ifs at hx <;> exact List.mem_cons_of_mem env (tri _ _ _ _ _ x hx)
      · exact List.mem_cons_of_mem env (tri _ _ _ _ _ x hx)

theorem activateSubnet_rem_sub (account : AccountId) :
    ∀ (fuel : Nat) (st : AgentState) (envs : List ActEnv),
    ∀ x ∈ (activateSubnet account fuel st envs).rem, x ∈ envs := by
  intro fuel
  induction fuel with
  | zero => intro st envs x hx; exact hx
  | succ f ih =>
    intro st envs
    cases envs with
    | nil => intro x hx; exact hx
    | cons env rest =>
      exact activateBody_rem_sub account _ (fun s es x hx => ih s es x hx) st env rest

theorem activateBody_stagger (account : AccountId)
    (recur : AgentState → List ActEnv → ActRes)
    (hrem : ∀ s es, ∀ x ∈ (recur s es).rem, x ∈ es)
    (hevs : ∀ s es, ∀ b ab m, Ev.activateTx b ab m ∈ (recur s es).evs →
      staggerSpec account es b ab m) :
    ∀ (st : AgentState) (env : ActEnv) (rest : List ActEnv),
    ∀ b ab m, Ev.activateTx b ab m ∈ (activateBody account recur st env rest).evs →
      staggerSpec account (env :: rest) b ab m := by
  have triE : ∀ (c1 c2 c3 : Bool) (s1 : AgentState) (es1 : List ActEnv) (b ab m : Nat),
      Ev.activateTx b ab m ∈
        (actRetry recur c1 s1 es1).evs ++
        (actRetry recur c2 (actRetry recur c1 s1 es1).st (actRetry recur c1 s1 es1).rem).evs ++
        (actRetry recur c3
          (actRetry recur c2 (actRetry recur c1 s1 es1).st (actRetry recur c1 s1 es1).rem).st
          (actRetry recur c2 (actRetry recur c1 s1 es1).st (actRetry recur c1 s1 es1).rem).rem).evs →
      staggerSpec account es1 b ab m := by
    intro c1 c2 c3 s1 es1 b ab m hx
    rcases List.mem_append.mp hx with hx | hx
    · rcases List.mem_append.mp hx with hx | hx
      · exact actRetry_stagger account recur hevs _ _ _ b ab m hx
      · exact staggerSpec_sub account _ _ (actRetry_rem_sub recur hrem _ _ _) b ab m
          (actRetry_stagger account recur hevs _ _ _ b ab m hx)
    · exact staggerSpec_sub account _ _ (actRetry_rem_sub recur hrem _ _ _) b ab m
        (staggerSpec_sub account _ _ (actRetry_rem_sub recur hrem _ _ _) b ab m
          (actRetry_stagger account recur hevs _ _ _ b ab m hx))
  intro st env rest b ab m hx
  unfold activateBody at hx
  cases h1 : env.subnetIdRes with
  | none => rw [h1] at hx; simp at hx
  | some sid =>
    rw [h1] at hx
    cases h2 : env.subnetDataRes with
    | none => rw [h2] at hx; simp at hx
    | some sd =>
      rw [h2] at hx
      dsimp only at hx
      split_ifs at hx with ha hw hr
      · simp at hx
      · exact staggerSpec_sub account _ _ (fun x h => List.mem_cons_of_mem env h) b ab m
          (triE _ _ _ _ _ b ab m hx)
      · have hown : Ev.activateTx b ab m =
            Ev.activateTx env.block (sd.initialized + sd.registration_blocks)
              (countIndex env.submittable account).1 →
            staggerSpec account (env :: rest) b ab m := by
          intro he
          injection he with hb hab hm
          refine ⟨env, List.mem_cons_self env rest, sd, h2, hab, hm, hb, ?_⟩
          rw [hab, hm, hb]
          exact hw.1
        cases hrc : env.receipt with
        | none =>
          rw [hrc] at hx
          rcases List.mem_append.mp hx with hx | hx
          · exact staggerSpec_sub account _ _ (fun x h => List.mem_cons_of_mem env h) b ab m
              (triE _ _ _ _ _ b ab m hx)
          · exact hown (List.mem_singleton.mp hx)
        | some rc =>
          rw [hrc] at hx
          dsimp only at hx
          split_ifs at hx <;>
            (rcases List.mem_append.mp hx with hx | hx
             · exact staggerSpec_sub account _ _ (fun x h => List.mem_cons_of_mem env h) b ab m
                 (triE _ _ _ _ _ b ab m hx)
             · exact hown (List.mem_singleton.mp hx))
      · exact staggerSpec_sub account _ _ (fun x h => List.mem_cons_of_mem env h) b ab m
          (triE _ _ _ _ _ b ab m hx)

theorem activateSubnet_stagger (account : AccountId) :
    ∀ (fuel : Nat) (st : AgentState) (envs : List ActEnv),
    ∀ b ab m, Ev.activateTx b ab m ∈ (activateSubnet account fuel st envs).evs →
      staggerSpec account envs b ab m := by
  intro fuel
  induction fuel with
  | zero => intro st envs b ab m hx; simp [activateSubnet] at hx
  | succ f ih =>
    intro st envs
    cases envs with
    | nil => intro b ab m hx; simp [activateSubnet] at hx
    | cons env rest =>
      exact activateBody_stagger account _
        (fun s es x hx => activateSubnet_rem_sub account f s es x hx)
        (fun s es b ab m hx => ih s es b ab m hx) st env rest

theorem countIndex_firstIdx (account : AccountId) :
    ∀ (l : List AccountId) (n : Nat), firstIdxIs l account n →
    countIndex l account = (n, true) := by
  intro l
  induction l with
  | nil =>
    intro n h
    obtain ⟨h1, h2, h3⟩ := h
    simp at h1
  | cons x xs ih =>
    intro n h
    obtain ⟨h1, h2, h3⟩ := h
    by_cases hx : x = account
    · have hn : n = 1 := by
        by_contra hne
        have h2' : 2 ≤ n := by omega
        have := h3 0 (by omega)
        rw [List.getElem?_cons_zero] at this
        exact this (by rw [hx])
      subst hn
      simp [countIndex, hx]
    · have hn : 2 ≤ n := by
        by_contra hne
        have : n = 1 := by omega
        subst this
        rw [List.getElem?_cons_zero] at h1
        exact hx (by injection h1)
      have hxs : firstIdxIs xs account (n - 1) := by
        refine ⟨?_, by omega, ?_⟩
        · have : (x :: xs)[n - 1]? = xs[n - 2]? := by
            have hs : n - 1 = (n - 2) + 1 := by omega
            rw [hs, List.getElem?_cons_succ]
          rw [this] at h1
          have hs2 : n - 1 - 1 = n - 2 := by omega
          rw [hs2]
          exact h1
        · intro k hk
          have := h3 (k + 1) (by omega)
          rw [List.getElem?_cons_succ] at this
          exact this
      have := ih (n - 1) hxs
      simp only [countIndex, if_neg hx]
      rw [this]
      have : n - 1 + 1 = n := by omega
      rw [this]

theorem applyOp_subPresent (ch : Chain) (op : ChainOp) (e : Nat)
    (h : subPresent ch e) : subPresent (applyOp ch op) e := by
  obtain ⟨s, hs⟩ := h
  cases op with
  | submitOp e' d =>
    cases h' : ch.submission e' with
    | none =>
      by_cases he : e = e'
      · subst he; rw [hs] at h'; cases h'
      · refine ⟨s, ?_⟩
        simp only [applyOp, h']
        simp [he, hs]
    | some s' =>
      refine ⟨s, ?_⟩
      simp only [applyOp, h']
      exact hs
  | attestOp e' a =>
    cases h' : ch.submission e' with
    | none =>
      refine ⟨s, ?_⟩
      simp only [applyOp, h']
      exact hs
    | some s' =>
      by_cases he : e = e'
      · subst he
        refine ⟨⟨s'.data, (a, 0) :: s'.attests⟩, ?_⟩
        simp only [applyOp, h']
        simp
      · refine ⟨s, ?_⟩
        simp only [applyOp, h']
        simp [he, hs]

theorem applyOp_selfAttested (account : AccountId) (ch : Chain) (op : ChainOp) (e : Nat)
    (h : selfAttested account ch e) : selfAttested account (applyOp ch op) e := by
  obtain ⟨s, hs, hatt⟩ := h
  cases op with
  | submitOp e' d =>
    cases h' : ch.submission e' with
    | none =>
      by_cases he : e = e'
      · subst he; rw [hs] at h'; cases h'
      · refine ⟨s, ?_, hatt⟩
        simp only [applyOp, h']
        simp [he, hs]
    | some s' =>
      refine ⟨s, ?_, hatt⟩
      simp only [applyOp, h']
      exact hs
  | attestOp e' a =>
    cases h' : ch.submission e' with
    | none =>
      refine ⟨s, ?_, hatt⟩
      simp only [applyOp, h']
      exact hs
    | some s' =>
      by_cases he : e = e'
      · subst he
        rw [hs] at h'
        cases h'
        refine ⟨⟨s.data, (a, 0) :: s.attests⟩, ?_, ?_⟩
        · simp only [applyOp, hs]
          simp
        · simp only [hasAttested, List.any_cons] at hatt ⊢
          simp [hatt]
      · refine ⟨s, ?_, hatt⟩
        simp only [applyOp, h']
        simp [he, hs]

theorem applyOps_subPresent (ops : List ChainOp) :
    ∀ (ch : Chain) (e : Nat), subPresent ch e → subPresent (applyOps ch ops) e := by
  induction ops with
  | nil => intro ch e h; exact h
  | cons op rest ih =>
    intro ch e h
    exact ih (applyOp ch op) e (applyOp_subPresent ch op e h)

theorem applyOps_selfAttested (account : AccountId) (ops : List ChainOp) :
    ∀ (ch : Chain) (e : Nat), selfAttested account ch e →
      selfAttested account (applyOps ch ops) e := by
  induction ops with
  | nil => intro ch e h; exact h
  | cons op rest ih =>
    intro ch e h
    exact ih (applyOp ch op) e (applyOp_selfAttested account ch op e h)

theorem attestStep_chain (account : AccountId) (ch : Chain) (epoch : Nat) (o : InnerObs)
    (prev : Option (Finset Rec)) :
    (attestStep account ch epoch o prev).ch = ch ∨
    (attestStep account ch epoch o prev).ch = applyOp ch (.attestOp epoch account) := by
  unfold attestStep
  cases ch.submission epoch with
  | none => exact Or.inl rfl
  | some sub =>
    dsimp only
    by_cases h1 : hasAttested account sub.attests = true
    · rw [if_pos h1]
      exact Or.inl rfl
    · rw [if_neg h1]
      cases hsa : shouldAttest prev (prevFetch ch epoch) sub.data o.myData with
      | error err => exact Or.inl rfl
      | ok p =>
        obtain ⟨sa, prev'⟩ := p
        dsimp only
        by_cases h2 : sa = true
        · rw [if_pos h2]
          by_cases h3 : doAttest o.attestReceipt = true
          · rw [if_pos h3]
            exact Or.inr rfl
          · rw [if_neg h3]
            exact Or.inl rfl
        · rw [if_neg h2]
          exact Or.inl rfl

theorem attestStep_subPresent (account : AccountId) (ch : Chain) (epoch : Nat)
    (o : InnerObs) (prev : Option (Finset Rec)) (e : Nat) (h : subPresent ch e) :
    subPresent (attestStep account ch epoch o prev).ch e := by
  rcases attestStep_chain account ch epoch o prev with hc | hc
  · rw [hc]; exact h
  · rw [hc]; exact applyOp_subPresent ch _ e h

theorem attestStep_selfAttested (account : AccountId) (ch : Chain) (epoch : Nat)
    (o : InnerObs) (prev : Option (Finset Rec)) (e : Nat)
    (h : selfAttested account ch e) :
    selfAttested account (attestStep account ch epoch o prev).ch e := by
  rcases attestStep_chain account ch epoch o prev with hc | hc
  · rw [hc]; exact h
  · rw [hc]; exact applyOp_selfAttested account ch _ e h

theorem attestOkCount_append (e : Nat) (l1 l2 : List Ev) :
    attestOkCount e (l1 ++ l2) = attestOkCount e l1 + attestOkCount e l2 := by
  simp [attestOkCount, List.filter_append]

theorem validateOkCount_append (e : Nat) (l1 l2 : List Ev) :
    validateOkCount e (l1 ++ l2) = validateOkCount e l1 + validateOkCount e l2 := by
  simp [validateOkCount, List.filter_append]

theorem attestOkCount_attestCall (e e' : Nat) (r : Bool) (rs : AttestReason) (l : List Ev) :
    attestOkCount e (.attestCall e' r rs :: l) = attestOkCount e l := by
  simp [attestOkCount, List.filter]

theorem attestStep_evs_shape (account : AccountId) (ch : Chain) (epoch : Nat)
    (o : InnerObs) (prev : Option (Finset Rec)) :
    (attestStep account ch epoch o prev).evs = [] ∨
    ∃ s, (attestStep account ch epoch o prev).evs = [.attestTx epoch s] := by
  unfold attestStep
  cases ch.submission epoch with
  | none => exact Or.inl rfl
  | some sub =>
    dsimp only
    by_cases h1 : hasAttested account sub.attests = true
    · rw [if_pos h1]
      exact Or.inl rfl
    · rw [if_neg h1]
      cases hsa : shouldAttest prev (prevFetch ch epoch) sub.data o.myData with
      | error err => exact Or.inl rfl
      | ok p =>
        obtain ⟨sa, prev'⟩ := p
        dsimp only
        by_cases h2 : sa = true
        · rw [if_pos h2]
          by_cases h3 : doAttest o.attestReceipt = true
          · rw [if_pos h3]
            exact Or.inr ⟨true, rfl⟩
          · rw [if_neg h3]
            exact Or.inr ⟨false, rfl⟩
        · rw [if_neg h2]
          exact Or.inl rfl

theorem attestOkCount_nil (e : Nat) : attestOkCount e [] = 0 := rfl

theorem attestOkCount_tx (e epoch : Nat) (s : Bool) :
    attestOkCount e [.attestTx epoch s] = if epoch = e ∧ s = true then 1 else 0 := by
  cases s with
  | false =>
    rw [if_neg (by simp)]
    simp [attestOkCount, List.filter]
  | true =>
    by_cases he : epoch = e
    · subst he
      rw [if_pos ⟨rfl, rfl⟩]
      simp [attestOkCount, List.filter]
    · rw [if_neg (by simp [he])]
      simp [attestOkCount, List.filter, he]

theorem attestStep_attestOk (account : AccountId) (ch : Chain) (epoch : Nat)
    (o : InnerObs) (prev : Option (Finset Rec)) (e : Nat) :
    (selfAttested account ch e → attestOkCount e (attestStep account ch epoch o prev).evs = 0) ∧
    attestOkCount e (attestStep account ch epoch o prev).evs ≤ 1 ∧
    (attestOkCount e (attestStep account ch epoch o prev).evs = 1 →
      selfAttested account (attestStep account ch epoch o prev).ch e) := by
  unfold attestStep
  cases hsub : ch.submission epoch with
  | none => exact ⟨fun _ => rfl, by simp [attestOkCount], fun h => by simp [attestOkCount] at h⟩
  | some sub =>
    dsimp only
    by_cases h1 : hasAttested account sub.attests = true
    · rw [if_pos h1]
      exact ⟨fun _ => rfl, by simp [attestOkCount], fun h => by simp [attestOkCount] at h⟩
    · rw [if_neg h1]
      cases hsa : shouldAttest prev (prevFetch ch epoch) sub.data o.myData with
      | error err =>
        exact ⟨fun _ => rfl, by simp [attestOkCount], fun h => by simp [attestOkCount] at h⟩
      | ok p =>
        obtain ⟨sa, prev'⟩ := p
        dsimp only
        by_cases h2 : sa = true
        · rw [if_pos h2]
          by_cases h3 : doAttest o.attestReceipt = true
          · rw [if_pos h3]
            dsimp only
            refine ⟨?_, ?_, ?_⟩
            · intro hself
              by_cases he : epoch = e
              · subst he
                obtain ⟨s0, hs0, ha0⟩ := hself
                rw [hsub] at hs0
                cases hs0
                exact absurd ha0 h1
              · rw [attestOkCount_tx]
                simp [he]
            · rw [attestOkCount_tx]
              split_ifs <;> omega
            · intro hcount
              by_cases he : epoch = e
              · subst he
                refine ⟨⟨sub.data, (account, 0) :: sub.attests⟩, ?_, ?_⟩
                · simp only [applyOp, hsub]
                  simp
                · simp [hasAttested]
              · rw [attestOkCount_tx] at hcount
                simp [he] at hcount
          · rw [if_neg h3]
            dsimp only
            refine ⟨fun _ => ?_, ?_, fun hcount => ?_⟩
            · rw [attestOkCount_tx]; simp
            · rw [attestOkCount_tx]; split_ifs <;> omega
            · rw [attestOkCount_tx] at hcount
              simp at hcount
        · rw [if_neg h2]
          exact ⟨fun _ => rfl, by simp [attestOkCount], fun h => by simp [attestOkCount] at h⟩

theorem innerAttestLoop_subPresent (account epochLength initE : Nat) (e : Nat) :
    ∀ (obs : List InnerObs) (checks : Nat) (st : AgentState) (ch : Chain),
    subPresent ch e →
    subPresent (innerAttestLoop account epochLength initE checks st ch obs).ch e := by
  intro obs
  induction obs with
  | nil => intro checks st ch h; exact h
  | cons o rest ih =>
    intro checks st ch h
    have h1 : subPresent (applyOps ch o.ops) e := applyOps_subPresent o.ops ch e h
    have h2 : subPresent (attestStep account (applyOps ch o.ops)
        (epochOf epochLength o.block) o st.prevData).ch e :=
      attestStep_subPresent account _ _ o _ e h1
    rw [innerAttestLoop]
    dsimp only
    by_cases hrol : initE < epochOf epochLength o.block
    · rw [if_pos hrol]; exact h1
    · rw [if_neg hrol]
      by_cases hmax : MAX_ATTEST_CHECKS < checks
      · rw [if_pos hmax]; exact h1
      · rw [if_neg hmax]
        cases hres : (attestStep account (applyOps ch o.ops)
            (epochOf epochLength o.block) o st.prevData).res with
        | none => exact h2
        | some p =>
          obtain ⟨r, reason⟩ := p
          dsimp only
          by_cases hr : r = true
          · rw [if_pos hr]; exact h2
          · rw [if_neg hr]
            cases reason
            · exact ih (checks + 1) _ _ h2
            · exact h2
            · exact ih (checks + 1) _ _ h2
            · exact ih (checks + 1) _ _ h2

theorem innerAttestLoop_selfAttested (account epochLength initE : Nat) (e : Nat) :
    ∀ (obs : List InnerObs) (checks : Nat) (st : AgentState) (ch : Chain),
    selfAttested account ch e →
    selfAttested account (innerAttestLoop account epochLength initE checks st ch obs).ch e := by
  intro obs
  induction obs with
  | nil => intro checks st ch h; exact h
  | cons o rest ih =>
    intro checks st ch h
    have h1 : selfAttested account (applyOps ch o.ops) e :=
      applyOps_selfAttested account o.ops ch e h
    have h2 : selfAttested account (attestStep account (applyOps ch o.ops)
        (epochOf epochLength o.block) o st.prevData).ch e :=
      attestStep_selfAttested account _ _ o _ e h1
    rw [innerAttestLoop]
    dsimp only
    by_cases hrol : initE < epochOf epochLength o.block
    · rw [if_pos hrol]; exact h1
    · rw [if_neg hrol]
      by_cases hmax : MAX_ATTEST_CHECKS < checks
      · rw [if_pos hmax]; exact h1
      · rw [if_neg hmax]
        cases hres : (attestStep account (applyOps ch o.ops)
            (epochOf epochLength o.block) o st.prevData).res with
        | none => exact h2
        | some p =>
          obtain ⟨r, reason⟩ := p
          dsimp only
          by_cases hr : r = true
          · rw [if_pos hr]; exact h2
          · rw [if_neg hr]
            cases reason
            · exact ih (checks + 1) _ _ h2
            · exact h2
            · exact ih (checks + 1) _ _ h2
            · exact ih (checks + 1) _ _ h2

theorem validateOkCount_attestStep (account : AccountId) (ch : Chain) (epoch : Nat)
    (o : InnerObs) (prev : Option (Finset Rec)) (e : Nat) :
    validateOkCount e (attestStep account ch epoch o prev).evs = 0 := by
  rcases attestStep_evs_shape account ch epoch o prev with hs | ⟨s, hs⟩ <;>
    simp [hs, validateOkCount, List.filter]

theorem innerAttestLoop_no_validate (account epochLength initE : Nat) (e : Nat) :
    ∀ (obs : List InnerObs) (checks : Nat) (st : AgentState) (ch : Chain),
    validateOkCount e (innerAttestLoop account epochLength initE checks st ch obs).evs = 0 := by
  intro obs
  induction obs with
  | nil => intro checks st ch; rfl
  | cons o rest ih =>
    intro checks st ch
    rw [innerAttestLoop]
    dsimp only
    by_cases hrol : initE < epochOf epochLength o.block
    · rw [if_pos hrol]; rfl
    · rw [if_neg hrol]
      by_cases hmax : MAX_ATTEST_CHECKS < checks
      · rw [if_pos hmax]; rfl
      · rw [if_neg hmax]
        cases hres : (attestStep account (applyOps ch o.ops)
            (epochOf epochLength o.block) o st.prevData).res with
        | none => exact validateOkCount_attestStep account _ _ o _ e
        | some p =>
          obtain ⟨r, reason⟩ := p
          dsimp only
          have hcall : validateOkCount e (Ev.attestCall (epochOf epochLength o.block) r reason ::
              (attestStep account (applyOps ch o.ops) (epochOf epochLength o.block) o
                st.prevData).evs) =
              validateOkCount e ((attestStep account (applyOps ch o.ops)
                (epochOf epochLength o.block) o st.prevData).evs) := by
            simp [validateOkCount, List.filter]
          by_cases hr : r = true
          · rw [if_pos hr]
            rw [hcall]
            exact validateOkCount_attestStep account _ _ o _ e
          · rw [if_neg hr]
            cases reason
            · dsimp only
              rw [validateOkCount_append, hcall, validateOkCount_attestStep account _ _ o _ e, ih]
            · rw [hcall]
              exact validateOkCount_attestStep account _ _ o _ e
            · dsimp only
              rw [validateOkCount_append, hcall, validateOkCount_attestStep account _ _ o _ e, ih]
            · dsimp only
              rw [validateOkCount_append, hcall, validateOkCount_attestStep account _ _ o _ e, ih]

theorem attestStep_continue_evs (account : AccountId) (ch : Chain) (epoch : Nat)
    (o : InnerObs) (prev : Option (Finset Rec)) (e : Nat) (reason : AttestReason)
    (hres : (attestStep account ch epoch o prev).res = some (false, reason))
    (hne : reason ≠ .ATTESTED) :
    attestOkCount e (attestStep account ch epoch o prev).evs = 0 := by
  unfold attestStep at hres ⊢
  cases hsub : ch.submission epoch with
  | none => rfl
  | some sub =>
    rw [hsub] at hres
    dsimp only at hres ⊢
    by_cases h1 : hasAttested account sub.attests = true
    · rw [if_pos h1] at hres
      injection hres with hres'
      injection hres' with _ hreason
      exact absurd hreason.symm hne
    · rw [if_neg h1] at hres ⊢
      cases hsa : shouldAttest prev (prevFetch ch epoch) sub.data o.myData with
      | error err => rfl
      | ok p =>
        obtain ⟨sa, prev'⟩ := p
        rw [hsa] at hres
        dsimp only at hres ⊢
        by_cases h2 : sa = true
        · rw [if_pos h2] at hres ⊢
          by_cases h3 : doAttest o.attestReceipt = true
          · rw [if_pos h3] at hres
            injection hres with hres'
            injection hres' with hfalse _
            cases hfalse
          · rw [if_neg h3]
            rw [attestOkCount_tx]
            simp
        · rw [if_neg h2]
          rfl

theorem innerAttestLoop_attestOk (account epochLength initE : Nat) (e : Nat) :
    ∀ (obs : List InnerObs) (checks : Nat) (st : AgentState) (ch : Chain),
    (selfAttested account ch e →
      attestOkCount e (innerAttestLoop account epochLength initE checks st ch obs).evs = 0) ∧
    attestOkCount e (innerAttestLoop account epochLength initE checks st ch obs).evs ≤ 1 ∧
    (attestOkCount e (innerAttestLoop account epochLength initE checks st ch obs).evs = 1 →
      selfAttested account (innerAttestLoop account epochLength initE checks st ch obs).ch e) := by
  intro obs
  induction obs with
  | nil =>
    intro checks st ch
    have hz : attestOkCount e
        (innerAttestLoop account epochLength initE checks st ch []).evs = 0 := rfl
    refine ⟨fun _ => hz, ?_, fun h => ?_⟩
    · rw [hz]
      exact Nat.zero_le 1
    · rw [hz] at h
      exact absurd h (by decide)
  | cons o rest ih =>
    intro checks st ch
    rw [innerAttestLoop]
    dsimp only
    by_cases hrol : initE < epochOf epochLength o.block
    · rw [if_pos hrol]
      exact ⟨fun _ => rfl, by simp [attestOkCount], fun h => by simp [attestOkCount] at h⟩
    · rw [if_neg hrol]
      by_cases hmax : MAX_ATTEST_CHECKS < checks
      · rw [if_pos hmax]
        exact ⟨fun _ => rfl, by simp [attestOkCount], fun h => by simp [attestOkCount] at h⟩
      · rw [if_neg hmax]
        have hstep := attestStep_attestOk account (applyOps ch o.ops)
          (epochOf epochLength o.block) o st.prevData e
        cases hres : (attestStep account (applyOps ch o.ops)
            (epochOf epochLength o.block) o st.prevData).res with
        | none =>
          refine ⟨?_, hstep.2.1, hstep.2.2⟩
          intro hself
          exact hstep.1 (applyOps_selfAttested account o.ops ch e hself)
        | some p =>
          obtain ⟨r, reason⟩ := p
          dsimp only
          by_cases hr : r = true
          · rw [if_pos hr]
            dsimp only
            rw [attestOkCount_attestCall]
            refine ⟨?_, hstep.2.1, hstep.2.2⟩
            intro hself
            exact hstep.1 (applyOps_selfAttested account o.ops ch e hself)
          · rw [if_neg hr]
            have hr' : r = false := by
              cases r
              · rfl
              · exact absurd rfl hr
            subst hr'
            cases reason with
            | ATTESTED =>
              dsimp only
              rw [attestOkCount_attestCall]
              refine ⟨?_, hstep.2.1, hstep.2.2⟩
              intro hself
              exact hstep.1 (applyOps_selfAttested account o.ops ch e hself)
            | WAITING =>
              dsimp only
              rw [attestOkCount_append, attestOkCount_attestCall]
              have hz := attestStep_continue_evs account (applyOps ch o.ops)
                (epochOf epochLength o.block) o st.prevData e .WAITING hres (by intro hc; cases hc)
              rw [hz, Nat.zero_add]
              have hk := ih (checks + 1)
                {st with prevData := (attestStep account (applyOps ch o.ops)
                  (epochOf epochLength o.block) o st.prevData).prev}
                (attestStep account (applyOps ch o.ops)
                  (epochOf epochLength o.block) o st.prevData).ch
              refine ⟨?_, hk.2.1, hk.2.2⟩
              intro hself
              exact hk.1 (attestStep_selfAttested account _ _ o _ e
                (applyOps_selfAttested account o.ops ch e hself))
            | ATTEST_FAILED =>
              dsimp only
              rw [attestOkCount_append, attestOkCount_attestCall]
              have hz := attestStep_continue_evs account (applyOps ch o.ops)
                (epochOf epochLength o.block) o st.prevData e .ATTEST_FAILED hres (by intro hc; cases hc)
              rw [hz, Nat.zero_add]
              have hk := ih (checks + 1)
                {st with prevData := (attestStep account (applyOps ch o.ops)
                  (epochOf epochLength o.block) o st.prevData).prev}
                (attestStep account (applyOps ch o.ops)
                  (epochOf epochLength o.block) o st.prevData).ch
              refine ⟨?_, hk.2.1, hk.2.2⟩
              intro hself
              exact hk.1 (attestStep_selfAttested account _ _ o _ e
                (applyOps_selfAttested account o.ops ch e hself))
            | SHOULD_NOT_ATTEST =>
              dsimp only
              rw [attestOkCount_append, attestOkCount_attestCall]
              have hz := attestStep_continue_evs account (applyOps ch o.ops)
                (epochOf epochLength o.block) o st.prevData e .SHOULD_NOT_ATTEST hres (by intro hc; cases hc)
              rw [hz, Nat.zero_add]
              have hk := ih (checks + 1)
                {st with prevData := (attestStep account (applyOps ch o.ops)
                  (epochOf epochLength o.block) o st.prevData).prev}
                (attestStep account (applyOps ch o.ops)
                  (epochOf epochLength o.block) o st.prevData).ch
              refine ⟨?_, hk.2.1, hk.2.2⟩
              intro hself
              exact hk.1 (attestStep_selfAttested account _ _ o _ e
                (applyOps_selfAttested account o.ops ch e hself))

theorem validateOkCount_nil (e : Nat) : validateOkCount e [] = 0 := rfl

theorem validateOkCount_tx (e epoch : Nat) (s : Bool) :
    validateOkCount e [.validateTx epoch s] = if epoch = e ∧ s = true then 1 else 0 := by
  cases s with
  | false =>
    rw [if_neg (by simp)]
    simp [validateOkCount, List.filter]
  | true =>
    by_cases he : epoch = e
    · subst he
      rw [if_pos ⟨rfl, rfl⟩]
      simp [validateOkCount, List.filter]
    · rw [if_neg (by simp [he])]
      simp [validateOkCount, List.filter, he]

theorem validateOkCount_zero_of_shape (e : Nat) (l : List Ev)
    (h : ∀ ev ∈ l, ev ≠ .validateTx e true) : validateOkCount e l = 0 := by
  unfold validateOkCount
  rw [List.filter_eq_nil_iff.mpr (fun a ha => by simp [h a ha])]
  rfl

theorem attestOkCount_zero_of_shape (e : Nat) (l : List Ev)
    (h : ∀ ev ∈ l, ev ≠ .attestTx e true) : attestOkCount e l = 0 := by
  unfold attestOkCount
  rw [List.filter_eq_nil_iff.mpr (fun a ha => by simp [h a ha])]
  rfl

theorem actRetry_evs_shape (recur : AgentState → List ActEnv → ActRes)
    (hevs : ∀ s es, ∀ ev ∈ (recur s es).evs, ∃ b ab m, ev = Ev.activateTx b ab m) :
    ∀ (cond : Bool) (s : AgentState) (es : List ActEnv),
    ∀ ev ∈ (actRetry recur cond s es).evs, ∃ b ab m, ev = Ev.activateTx b ab m := by
  intro cond s es ev hev
  unfold actRetry at hev
  split_ifs at hev with h
  · exact hevs s es ev hev
  · simp at hev

theorem activateBody_evs_shape (account : AccountId)
    (recur : AgentState → List ActEnv → ActRes)
    (hevs : ∀ s es, ∀ ev ∈ (recur s es).evs, ∃ b ab m, ev = Ev.activateTx b ab m) :
    ∀ (st : AgentState) (env : ActEnv) (rest : List ActEnv),
    ∀ ev ∈ (activateBody account recur st env rest).evs,
      ∃ b ab m, ev = Ev.activateTx b ab m := by
  have triE : ∀ (c1 c2 c3 : Bool) (s1 : AgentState) (es1 : List ActEnv) (ev : Ev),
      ev ∈ (actRetry recur c1 s1 es1).evs ++
        (actRetry recur c2 (actRetry recur c1 s1 es1).st (actRetry recur c1 s1 es1).rem).evs ++
        (actRetry recur c3
          (actRetry recur c2 (actRetry recur c1 s1 es1).st (actRetry recur c1 s1 es1).rem).st
          (actRetry recur c2 (actRetry recur c1 s1 es1).st (actRetry recur c1 s1 es1).rem).rem).evs →
      ∃ b ab m, ev = Ev.activateTx b ab m := by
    intro c1 c2 c3 s1 es1 ev hev
    rcases List.mem_append.mp hev with hev | hev
    · rcases List.mem_append.mp hev with hev | hev
      · exact actRetry_evs_shape recur hevs _ _ _ ev hev
      · exact actRetry_evs_shape recur hevs _ _ _ ev hev
    · exact actRetry_evs_shape recur hevs _ _ _ ev hev
  intro st env rest ev hev
  unfold activateBody at hev
  cases h1 : env.subnetIdRes with
  | none => rw [h1] at hev; simp at hev
  | some sid =>
    rw [h1] at hev
    cases h2 : env.subnetDataRes with
    | none => rw [h2] at hev; simp at hev
    | some sd =>
      rw [h2] at hev
      dsimp only at hev
      split_ifs at hev with ha hw hr
      · simp at hev
      · exact triE _ _ _ _ _ ev hev
      · cases hrc : env.receipt with
        | none =>
          rw [hrc] at hev
          rcases List.mem_append.mp hev with hev | hev
          · exact triE _ _ _ _ _ ev hev
          · exact ⟨env.block, sd.initialized + sd.registration_blocks,
              (countIndex env.submittable account).1, List.mem_singleton.mp hev⟩
        | some rc =>
          rw [hrc] at hev
          dsimp only at hev
          split_ifs at hev <;>
            (rcases List.mem_append.mp hev with hev | hev
             · exact triE _ _ _ _ _ ev hev
             · exact ⟨env.block, sd.initialized + sd.registration_blocks,
                 (countIndex env.submittable account).1, List.mem_singleton.mp hev⟩)
      · exact triE _ _ _ _ _ ev hev

theorem activateSubnet_evs_shape (account : AccountId) :
    ∀ (fuel : Nat) (st : AgentState) (envs : List ActEnv),
    ∀ ev ∈ (activateSubnet account fuel st envs).evs,
      ∃ b ab m, ev = Ev.activateTx b ab m := by
  intro fuel
  induction fuel with
  | zero => intro st envs ev hev; simp [activateSubnet] at hev
  | succ f ih =>
    intro st envs
    cases envs with
    | nil => intro ev hev; simp [activateSubnet] at hev
    | cons env rest =>
      exact activateBody_evs_shape account _ (fun s es ev hev => ih s es ev hev) st env rest

theorem validatorBranch_validateOk (epoch : Nat)
    (st1 : AgentState) (ch1 : Chain) (env : OuterEnv) (e : Nat) :
    (subPresent ch1 e → validateOkCount e (validatorBranch epoch st1 ch1 env).evs = 0) ∧
    validateOkCount e (validatorBranch epoch st1 ch1 env).evs ≤ 1 ∧
    (validateOkCount e (validatorBranch epoch st1 ch1 env).evs = 1 →
      subPresent (validatorBranch epoch st1 ch1 env).ch e) := by
  unfold validatorBranch
  cases hsub : ch1.submission epoch with
  | some s =>
    exact ⟨fun _ => rfl, by simp [validateOkCount], fun h => by simp [validateOkCount] at h⟩
  | none =>
    dsimp only
    by_cases hv : doValidate env.validateReceipt = true
    · rw [if_pos hv]
      refine ⟨?_, ?_, ?_⟩
      · intro hp
        by_cases he : epoch = e
        · subst he
          obtain ⟨s0, hs0⟩ := hp
          rw [hsub] at hs0
          cases hs0
        · rw [validateOkCount_tx]
          simp [he]
      · rw [validateOkCount_tx]
        split_ifs <;> omega
      · intro hcount
        rw [validateOkCount_tx] at hcount
        by_cases he : epoch = e
        · subst he
          refine ⟨⟨env.myData, []⟩, ?_⟩
          simp only [applyOp, hsub]
          simp
        · simp [he] at hcount
    · rw [if_neg hv]
      refine ⟨?_, ?_, ?_⟩
      · intro _
        rw [validateOkCount_tx]
        simp
      · rw [validateOkCount_tx]
        split_ifs <;> omega
      · intro hcount
        rw [validateOkCount_tx] at hcount
        simp at hcount

theorem validatorBranch_attestOk_zero (epoch : Nat) (st1 : AgentState) (ch1 : Chain)
    (env : OuterEnv) (e : Nat) :
    attestOkCount e (validatorBranch epoch st1 ch1 env).evs = 0 := by
  unfold validatorBranch
  cases hsub : ch1.submission epoch with
  | some s => rfl
  | none =>
    dsimp only
    by_cases hv : doValidate env.validateReceipt = true
    · rw [if_pos hv]
      simp [attestOkCount, List.filter]
    · rw [if_neg hv]
      simp [attestOkCount, List.filter]

theorem validatorBranch_subPresent (epoch : Nat) (st1 : AgentState) (ch1 : Chain)
    (env : OuterEnv) (e : Nat) (h : subPresent ch1 e) :
    subPresent (validatorBranch epoch st1 ch1 env).ch e := by
  unfold validatorBranch
  cases hsub : ch1.submission epoch with
  | some s => exact h
  | none =>
    dsimp only
    by_cases hv : doValidate env.validateReceipt = true
    · rw [if_pos hv]
      exact applyOp_subPresent ch1 _ e h
    · rw [if_neg hv]
      exact h

theorem validatorBranch_selfAttested (account : AccountId) (epoch : Nat)
    (st1 : AgentState) (ch1 : Chain) (env : OuterEnv) (e : Nat)
    (h : selfAttested account ch1 e) :
    selfAttested account (validatorBranch epoch st1 ch1 env).ch e := by
  unfold validatorBranch
  cases hsub : ch1.submission epoch with
  | some s => exact h
  | none =>
    dsimp only
    by_cases hv : doValidate env.validateReceipt = true
    · rw [if_pos hv]
      exact applyOp_selfAttested account ch1 _ e h
    · rw [if_neg hv]
      exact h

theorem consensusStep_subPresent (account epochLength : Nat) (st : AgentState)
    (ch : Chain) (env : OuterEnv) (e : Nat) (h : subPresent ch e) :
    subPresent (consensusStep account epochLength st ch env).ch e := by
  have hch1 : subPresent (applyOps ch env.ops) e := applyOps_subPresent env.ops ch e h
  unfold consensusStep
  by_cases hstop : st.stopped = true
  · simp only [if_pos hstop]
    exact h
  · simp only [if_neg hstop]
    by_cases hskip : epochOf epochLength env.block ≤ st.lastEpoch ∧ st.acceptingConsensus = true
    · simp only [if_pos hskip]
      exact hch1
    · simp only [if_neg hskip]
      by_cases hacc : st.acceptingConsensus = false
      · simp only [if_pos hacc]
        exact hch1
      · simp only [if_neg hacc]
        split_ifs with helig
        · exact hch1
        · unfold roleBranch
          cases env.validator with
          | none => exact hch1
          | some v =>
            dsimp only
            split_ifs with hv
            · exact validatorBranch_subPresent _ _ _ env e hch1
            · exact innerAttestLoop_subPresent account epochLength _ e env.inner 0 _ _ hch1

theorem consensusStep_selfAttested (account epochLength : Nat) (st : AgentState)
    (ch : Chain) (env : OuterEnv) (e : Nat) (h : selfAttested account ch e) :
    selfAttested account (consensusStep account epochLength st ch env).ch e := by
  have hch1 : selfAttested account (applyOps ch env.ops) e :=
    applyOps_selfAttested account env.ops ch e h
  unfold consensusStep
  by_cases hstop : st.stopped = true
  · simp only [if_pos hstop]
    exact h
  · simp only [if_neg hstop]
    by_cases hskip : epochOf epochLength env.block ≤ st.lastEpoch ∧ st.acceptingConsensus = true
    · simp only [if_pos hskip]
      exact hch1
    · simp only [if_neg hskip]
      by_cases hacc : st.acceptingConsensus = false
      · simp only [if_pos hacc]
        exact hch1
      · simp only [if_neg hacc]
        split_ifs with helig
        · exact hch1
        · unfold roleBranch
          cases env.validator with
          | none => exact hch1
          | some v =>
            dsimp only
            split_ifs with hv
            · exact validatorBranch_selfAttested account _ _ _ env e hch1
            · exact innerAttestLoop_selfAttested account epochLength _ e env.inner 0 _ _ hch1

theorem consensusStep_validateOk (account epochLength : Nat) (st : AgentState)
    (ch : Chain) (env : OuterEnv) (e : Nat) :
    (subPresent ch e → validateOkCount e (consensusStep account epochLength st ch env).evs = 0) ∧
    validateOkCount e (consensusStep account epochLength st ch env).evs ≤ 1 ∧
    (validateOkCount e (consensusStep account epochLength st ch env).evs = 1 →
      subPresent (consensusStep account epochLength st ch env).ch e) := by
  unfold consensusStep
  by_cases hstop : st.stopped = true
  · simp only [if_pos hstop]
    exact ⟨fun _ => rfl, by simp [validateOkCount], fun h => by simp [validateOkCount] at h⟩
  · simp only [if_neg hstop]
    by_cases hskip : epochOf epochLength env.block ≤ st.lastEpoch ∧ st.acceptingConsensus = true
    · simp only [if_pos hskip]
      exact ⟨fun _ => rfl, by simp [validateOkCount], fun h => by simp [validateOkCount] at h⟩
    · simp only [if_neg hskip]
      by_cases hacc : st.acceptingConsensus = false
      · simp only [if_pos hacc]
        have hz : validateOkCount e (activateSubnet account env.actFuel st env.act).evs = 0 := by
          refine validateOkCount_zero_of_shape e _ (fun ev hev => ?_)
          obtain ⟨b, ab, m, hm⟩ := activateSubnet_evs_shape account env.actFuel st env.act ev hev
          rw [hm]
          intro hc
          cases hc
        refine ⟨fun _ => hz, ?_, fun h => ?_⟩
        · rw [hz]
          exact Nat.zero_le 1
        · rw [hz] at h
          exact absurd h (by decide)
      · simp only [if_neg hacc]
        split_ifs with helig
        · exact ⟨fun _ => rfl, by simp [validateOkCount], fun h => by simp [validateOkCount] at h⟩
        · unfold roleBranch
          cases env.validator with
          | none =>
            exact ⟨fun _ => rfl, by simp [validateOkCount], fun h => by simp [validateOkCount] at h⟩
          | some v =>
            dsimp only
            split_ifs with hv
            · have hb := validatorBranch_validateOk
                (epochOf epochLength env.block) (eligibilityUpdate account st env.submittable)
                (applyOps ch env.ops) env e
              exact ⟨fun hp => hb.1 (applyOps_subPresent env.ops ch e hp), hb.2.1, hb.2.2⟩
            · have hz := innerAttestLoop_no_validate account epochLength
                (epochOf epochLength env.block) e env.inner 0
                (eligibilityUpdate account st env.submittable) (applyOps ch env.ops)
              refine ⟨fun _ => hz, ?_, fun h => ?_⟩
              · rw [hz]
                exact Nat.zero_le 1
              · rw [hz] at h
                exact absurd h (by decide)

theorem consensusStep_attestOk (account epochLength : Nat) (st : AgentState)
    (ch : Chain) (env : OuterEnv) (e : Nat) :
    (selfAttested account ch e →
      attestOkCount e (consensusStep account epochLength st ch env).evs = 0) ∧
    attestOkCount e (consensusStep account epochLength st ch env).evs ≤ 1 ∧
    (attestOkCount e (consensusStep account epochLength st ch env).evs = 1 →
      selfAttested account (consensusStep account epochLength st ch env).ch e) := by
  unfold consensusStep
  by_cases hstop : st.stopped = true
  · simp only [if_pos hstop]
    exact ⟨fun _ => rfl, by simp [attestOkCount], fun h => by simp [attestOkCount] at h⟩
  · simp only [if_neg hstop]
    by_cases hskip : epochOf epochLength env.block ≤ st.lastEpoch ∧ st.acceptingConsensus = true
    · simp only [if_pos hskip]
      exact ⟨fun _ => rfl, by simp [attestOkCount], fun h => by simp [attestOkCount] at h⟩
    · simp only [if_neg hskip]
      by_cases hacc : st.acceptingConsensus = false
      · simp only [if_pos hacc]
        have hz : attestOkCount e (activateSubnet account env.actFuel st env.act).evs = 0 := by
          refine attestOkCount_zero_of_shape e _ (fun ev hev => ?_)
          obtain ⟨b, ab, m, hm⟩ := activateSubnet_evs_shape account env.actFuel st env.act ev hev
          rw [hm]
          intro hc
          cases hc
        refine ⟨fun _ => hz, ?_, fun h => ?_⟩
        · rw [hz]
          exact Nat.zero_le 1
        · rw [hz] at h
          exact absurd h (by decide)
      · simp only [if_neg hacc]
        split_ifs with helig
        · exact ⟨fun _ => rfl, by simp [attestOkCount], fun h => by simp [attestOkCount] at h⟩
        · unfold roleBranch
          cases env.validator with
          | none =>
            exact ⟨fun _ => rfl, by simp [attestOkCount], fun h => by simp [attestOkCount] at h⟩
          | some v =>
            dsimp only
            split_ifs with hv
            · have hz := validatorBranch_attestOk_zero (epochOf epochLength env.block)
                (eligibilityUpdate account st env.submittable) (applyOps ch env.ops) env e
              refine ⟨fun _ => hz, ?_, fun h => ?_⟩
              · rw [hz]
                exact Nat.zero_le 1
              · rw [hz] at h
                exact absurd h (by decide)
            · have hb := innerAttestLoop_attestOk account epochLength
                (epochOf epochLength env.block) e env.inner 0
                (eligibilityUpdate account st env.submittable) (applyOps ch env.ops)
              exact ⟨fun hp => hb.1 (applyOps_selfAttested account env.ops ch e hp),
                hb.2.1, hb.2.2⟩

theorem runTrace_validateOk (account epochLength e : Nat) :
    ∀ (steps : List TStep) (st : AgentState) (ch : Chain),
    (subPresent ch e → validateOkCount e (runTrace account epochLength st ch steps).evs = 0) ∧
    validateOkCount e (runTrace account epochLength st ch steps).evs ≤ 1 := by
  intro steps
  induction steps with
  | nil =>
    intro st ch
    exact ⟨fun _ => rfl, Nat.zero_le 1⟩
  | cons s rest ih =>
    intro st ch
    cases s with
    | restart => exact ih initAgentState ch
    | iter env =>
      have hstep := consensusStep_validateOk account epochLength st ch env e
      have hpres := consensusStep_subPresent account epochLength st ch env e
      have happ : validateOkCount e (runTrace account epochLength st ch (.iter env :: rest)).evs =
          validateOkCount e (consensusStep account epochLength st ch env).evs +
          validateOkCount e (runTrace account epochLength
            (consensusStep account epochLength st ch env).st
            (consensusStep account epochLength st ch env).ch rest).evs := by
        rw [runTrace]
        exact validateOkCount_append e _ _
      constructor
      · intro hp
        rw [happ, hstep.1 hp,
          (ih (consensusStep account epochLength st ch env).st
            (consensusStep account epochLength st ch env).ch).1 (hpres hp)]
      · rw [happ]
        have h1 := hstep.2.1
        have h01 : validateOkCount e (consensusStep account epochLength st ch env).evs = 0 ∨
            validateOkCount e (consensusStep account epochLength st ch env).evs = 1 := by omega
        rcases h01 with h0 | h1'
        · rw [h0, Nat.zero_add]
          exact (ih _ _).2
        · rw [h1']
          have hp2 := hstep.2.2 h1'
          rw [(ih _ _).1 hp2]
      
theorem runTrace_attestOk (account epochLength e : Nat) :
    ∀ (steps : List TStep) (st : AgentState) (ch : Chain),
    (selfAttested account ch e →
      attestOkCount e (runTrace account epochLength st ch steps).evs = 0) ∧
    attestOkCount e (runTrace account epochLength st ch steps).evs ≤ 1 := by
  intro steps
  induction steps with
  | nil =>
    intro st ch
    exact ⟨fun _ => rfl, Nat.zero_le 1⟩
  | cons s rest ih =>
    intro st ch
    cases s with
    | restart => exact ih initAgentState ch
    | iter env =>
      have hstep := consensusStep_attestOk account epochLength st ch env e
      have hpres := consensusStep_selfAttested account epochLength st ch env e
      have happ : attestOkCount e (runTrace account epochLength st ch (.iter env :: rest)).evs =
          attestOkCount e (consensusStep account epochLength st ch env).evs +
          attestOkCount e (runTrace account epochLength
            (consensusStep account epochLength st ch env).st
            (consensusStep account epochLength st ch env).ch rest).evs := by
        rw [runTrace]
        exact attestOkCount_append e _ _
      constructor
      · intro hp
        rw [happ, hstep.1 hp,
          (ih (consensusStep account epochLength st ch env).st
            (consensusStep account epochLength st ch env).ch).1 (hpres hp)]
      · rw [happ]
        have h1 := hstep.2.1
        have h01 : attestOkCount e (consensusStep account epochLength st ch env).evs = 0 ∨
            attestOkCount e (consensusStep account epochLength st ch env).evs = 1 := by omega
        rcases h01 with h0 | h1'
        · rw [h0, Nat.zero_add]
          exact (ih _ _).2
        · rw [h1']
          have hp2 := hstep.2.2 h1'
          rw [(ih _ _).1 hp2]

section ClaimTheorems

/-- C10: the extrinsic-submission wrappers _do_validate and _do_attest never
propagate an exception: a raised error surfaces only as the return value
False, and a returned receipt yields its is_success flag.  (In the embedding
raising code has an Except result type; both wrappers return a plain Bool for
every input.) -/
theorem submit_wrappers_return_bool :
    (∀ e : PyErr, doValidate (.error e) = false ∧ doAttest (.error e) = false) ∧
    (∀ r : Receipt, doValidate (.ok r) = r.is_success ∧ doAttest (.ok r) = r.is_success) :=
  ⟨fun _ => ⟨rfl, rfl⟩, fun _ => ⟨rfl, rfl⟩⟩

/-- C4: should_attest is reflexive: feeding the same canonical score vector
as the validator's data and as our own data returns True, for every score
vector including the empty one, every stored previous_epoch_data and every
previous-epoch fetch (hence every epoch). -/
theorem should_attest_reflexive :
    ∀ (prev : Option (Finset Rec)) (fetchPrev : Option RawSubmission) (A : List Rec),
    shouldAttest prev fetchPrev A A = .ok (true, if A.isEmpty then prev else some A.toFinset) := by
  intro prev fetchPrev A
  cases A with
  | nil => simp [shouldAttest]
  | cons x xs => simp [shouldAttest]

/-- C3: in the first-epoch fallback (previous_epoch_data is None, the score
sets differ, and the previous epoch's validator submission exists on chain)
should_attest does not compare the symmetric difference against that
submission's canonicalized score records: lines 515-519 iterate the raw
submission mapping itself and call dataclasses.asdict on its elements, which
raises TypeError.  Here the discrepancy {peer 1, score 5} is exactly the
prior submission's only record, so the claimed comparison would succeed,
yet the call raises instead. -/
theorem should_attest_fallback_raises :
    shouldAttest none (some ⟨[⟨1, 5⟩], []⟩) [⟨1, 5⟩] [] = .error .typeError := rfl

/-- C5 counterexample: an attestation attempt that reaches the comparison
step (submission present on chain, our account not in its attests list) with
both the validator's data and our own data empty leaves previous_epoch_data
untouched instead of updating it to the freshly produced (empty) score set:
the early return at line 487 skips the update at line 526. -/
theorem should_attest_both_empty_no_update :
    (attestStep 7 (chSub 10 ⟨[], []⟩) 10 ⟨[], 100, [], .ok ⟨true⟩⟩ (some {⟨1, 2⟩})).prev
        = some {⟨1, 2⟩} ∧
    some ({⟨1, 2⟩} : Finset Rec) ≠ some (([] : List Rec).toFinset) :=
  ⟨rfl, by decide⟩

/-- C5 amended: every should_attest call that returns normally updates
previous_epoch_data to the node's freshly produced canonical score set,
except when both the validator's data and the node's own data are empty (the
early return leaves it unchanged); a raised fallback TypeError also skips
the update (excluded here by requiring a normal return). -/
theorem should_attest_updates_prev_unless_both_empty :
    ∀ (prev : Option (Finset Rec)) (fetchPrev : Option RawSubmission)
      (A B : List Rec) (r : Bool × Option (Finset Rec)),
    ¬(A = [] ∧ B = []) → shouldAttest prev fetchPrev A B = .ok r →
    r.2 = some B.toFinset := by
  intro prev fetchPrev A B r hne h
  have hcond : ¬(A.length = 0 ∧ B.length = 0) := by
    intro hc
    exact hne ⟨List.length_eq_zero.mp hc.1, List.length_eq_zero.mp hc.2⟩
  rw [shouldAttest, if_neg hcond] at h
  dsimp only at h
  split_ifs at h with h1
  · cases h; rfl
  · cases prev with
    | some p => cases h; rfl
    | none =>
      cases fetchPrev with
      | some s => cases h
      | none => cases h; rfl

/-- C5 amended, witness at a concrete input: validator data nonempty, own
data empty, stored previous set empty. -/
theorem should_attest_updates_prev_unless_both_empty_witness :
    ((false, some (∅ : Finset Rec)) : Bool × Option (Finset Rec)).2
      = some (([] : List Rec).toFinset) :=
  should_attest_updates_prev_unless_both_empty (some ∅) none [⟨1, 2⟩] []
    (false, some ∅) (by simp) rfl

/-- C9: the epoch the consensus loop computes (int(block_number /
epoch_length), CPython binary64 true division then truncation) differs from
the data model's exact floor division at block_number 999999999999999999 with
epoch_length 10: the double rounds 99999999999999999.9 up to 1e17, so the
code yields 100000000000000000 while floor gives 99999999999999999. -/
theorem epoch_int_truediv_mismatch :
    pyEpochOf 10 999999999999999999 = 100000000000000000 ∧
    epochOf 10 999999999999999999 = 99999999999999999 ∧
    pyEpochOf 10 999999999999999999 ≠ epochOf 10 999999999999999999 :=
  ⟨by decide, by decide, by decide⟩


/-- C2: last_validated_or_attested_epoch (the spec's last_completed_epoch) is
non-decreasing across any consensus-loop iteration - no assignment in the
loop gives it a smaller value - under the standing assumption that the chain
height does not go backwards within the iteration (every block refetched by
the inner attest loop is at least the block the iteration started from). -/
theorem last_epoch_nondecreasing :
    ∀ (account epochLength : Nat) (st : AgentState) (ch : Chain) (env : OuterEnv),
    (∀ o ∈ env.inner, env.block ≤ o.block) →
    st.lastEpoch ≤ (consensusStep account epochLength st ch env).st.lastEpoch := by
  intro account epochLength st ch env hmono
  unfold consensusStep
  by_cases hstop : st.stopped = true
  · simp only [if_pos hstop]
    exact le_refl _
  · simp only [if_neg hstop]
    by_cases hskip : epochOf epochLength env.block ≤ st.lastEpoch ∧ st.acceptingConsensus = true
    · simp only [if_pos hskip]
      exact le_refl _
    · simp only [if_neg hskip]
      by_cases hacc : st.acceptingConsensus = false
      · simp only [if_pos hacc]
        exact le_of_eq (activateSubnet_lastEpoch account env.actFuel st env.act).symm
      · simp only [if_neg hacc]
        have hguard : st.lastEpoch < epochOf epochLength env.block := by
          rcases not_and_or.mp hskip with h | h
          · exact Nat.lt_of_not_le h
          · exact absurd (Bool.not_eq_false _ |>.mp hacc) (by simp_all)
        have hel : (eligibilityUpdate account st env.submittable).lastEpoch = st.lastEpoch := by
          unfold eligibilityUpdate
          split_ifs <;> rfl
        split_ifs with helig
        · exact le_of_eq hel.symm
        · unfold roleBranch
          cases env.validator with
          | none => exact le_of_eq hel.symm
          | some v =>
            dsimp only
            split_ifs with hv
            · calc st.lastEpoch = (eligibilityUpdate account st env.submittable).lastEpoch := hel.symm
                _ ≤ _ := validatorBranch_lastEpoch_mono _ _ _ env (by rw [hel]; exact le_of_lt hguard)
            · calc st.lastEpoch = (eligibilityUpdate account st env.submittable).lastEpoch := hel.symm
                _ ≤ _ := innerAttestLoop_lastEpoch_mono account epochLength _ env.inner 0 _ _
                    (by rw [hel]; exact hguard)
                    (fun o ho => Nat.div_le_div_right (hmono o ho))

/-- C2, witness: a concrete attester iteration with in-epoch blocks. -/
theorem last_epoch_nondecreasing_witness :
    (⟨true, true, some 1, 4, none, false⟩ : AgentState).lastEpoch ≤
      (consensusStep 7 10 ⟨true, true, some 1, 4, none, false⟩ chEmpty
        ⟨[], 100, some 9, [], [], .ok ⟨true⟩, [⟨[], 101, [], .ok ⟨true⟩⟩], [], 0⟩).st.lastEpoch :=
  last_epoch_nondecreasing 7 10 ⟨true, true, some 1, 4, none, false⟩ chEmpty
    ⟨[], 100, some 9, [], [], .ok ⟨true⟩, [⟨[], 101, [], .ok ⟨true⟩⟩], [], 0⟩
    (by intro o ho; simp at ho; subst ho; decide)


/-- C6: when the validator's on-chain submission for the epoch already lists
this node's account in its attests list, attest returns (False, ATTESTED)
without submitting an attest extrinsic, and the inner loop treats this as
completion: it stores the epoch into last_validated_or_attested_epoch and
exits (the single recorded event is the attest call itself, no attestTx). -/
theorem already_attested_completes :
    ∀ (account epochLength : Nat) (st : AgentState) (ch : Chain) (initE checks : Nat)
      (o : InnerObs) (rest : List InnerObs) (sub : RawSubmission),
    ch.submission (epochOf epochLength o.block) = some sub →
    hasAttested account sub.attests = true →
    o.ops = [] →
    epochOf epochLength o.block ≤ initE →
    checks ≤ MAX_ATTEST_CHECKS →
    (attestStep account ch (epochOf epochLength o.block) o st.prevData).res
        = some (false, .ATTESTED) ∧
    innerAttestLoop account epochLength initE checks st ch (o :: rest) =
      ⟨{st with lastEpoch := epochOf epochLength o.block}, ch,
        [.attestCall (epochOf epochLength o.block) false .ATTESTED], .attestedAlready⟩ := by
  intro account epochLength st ch initE checks o rest sub hsub hatt hops hroll hchk
  have hstep : attestStep account ch (epochOf epochLength o.block) o st.prevData
      = ⟨some (false, .ATTESTED), st.prevData, ch, []⟩ := by
    unfold attestStep
    rw [hsub]
    dsimp only
    rw [if_pos hatt]
  refine ⟨by rw [hstep], ?_⟩
  rw [innerAttestLoop]
  simp only [hops, applyOps, List.foldl_nil]
  rw [if_neg (not_lt.mpr hroll), if_neg (not_lt.mpr hchk)]
  rw [hstep]
  rfl

/-- C6, witness: epoch 10, submission with empty data already attested by
account 7. -/
theorem already_attested_completes_witness :
    (attestStep 7 (chSub 10 ⟨[], [(7, 0)]⟩) 10 ⟨[], 100, [], .ok ⟨false⟩⟩
        initAgentState.prevData).res = some (false, .ATTESTED) ∧
    innerAttestLoop 7 10 10 0 initAgentState (chSub 10 ⟨[], [(7, 0)]⟩)
        [⟨[], 100, [], .ok ⟨false⟩⟩] =
      ⟨{initAgentState with lastEpoch := 10}, chSub 10 ⟨[], [(7, 0)]⟩,
        [.attestCall 10 false .ATTESTED], .attestedAlready⟩ :=
  already_attested_completes 7 10 initAgentState (chSub 10 ⟨[], [(7, 0)]⟩) 10 0
    ⟨[], 100, [], .ok ⟨false⟩⟩ [] ⟨[], [(7, 0)]⟩ rfl rfl rfl (by decide) (by decide)

/-- C7: when the validator's submission stays absent for the whole epoch
(every attest call returns WAITING) and the epoch does not roll over, the
inner attest loop exits by the attest_checks counter exceeding
MAX_ATTEST_CHECKS = 3, after exactly four WAITING attempts (the fifth pass
breaks before calling attest), leaving last_validated_or_attested_epoch and
the whole agent state unchanged and submitting nothing. -/
theorem waiting_exits_after_max_checks :
    ∀ (account epochLength initE : Nat) (st : AgentState) (ch : Chain)
      (o1 o2 o3 o4 o5 : InnerObs) (rest : List InnerObs),
    (∀ o ∈ [o1, o2, o3, o4, o5], o.ops = [] ∧ epochOf epochLength o.block = initE) →
    ch.submission initE = none →
    innerAttestLoop account epochLength initE 0 st ch (o1 :: o2 :: o3 :: o4 :: o5 :: rest) =
      ⟨st, ch, List.replicate 4 (.attestCall initE false .WAITING), .maxChecks⟩ := by
  intro account epochLength initE st ch o1 o2 o3 o4 o5 rest hobs hnone
  obtain ⟨h1o, h1e⟩ := hobs o1 (by simp)
  obtain ⟨h2o, h2e⟩ := hobs o2 (by simp)
  obtain ⟨h3o, h3e⟩ := hobs o3 (by simp)
  obtain ⟨h4o, h4e⟩ := hobs o4 (by simp)
  obtain ⟨h5o, h5e⟩ := hobs o5 (by simp)
  rw [inner_waiting_step account epochLength initE 0 st ch o1 _ h1o h1e hnone (by decide)]
  rw [inner_waiting_step account epochLength initE 1 st ch o2 _ h2o h2e hnone (by decide)]
  rw [inner_waiting_step account epochLength initE 2 st ch o3 _ h3o h3e hnone (by decide)]
  rw [inner_waiting_step account epochLength initE 3 st ch o4 _ h4o h4e hnone (by decide)]
  have h5 : innerAttestLoop account epochLength initE 4 st ch (o5 :: rest)
      = ⟨st, ch, [], .maxChecks⟩ := by
    rw [innerAttestLoop]
    simp only [h5o, applyOps, List.foldl_nil, h5e]
    rw [if_neg (lt_irrefl initE), if_pos (by decide : MAX_ATTEST_CHECKS < 4)]
  rw [h5]
  rfl

/-- C7, witness: five identical in-epoch observations over an empty chain. -/
theorem waiting_exits_after_max_checks_witness :
    innerAttestLoop 7 10 10 0 initAgentState chEmpty
        [⟨[], 100, [], .ok ⟨false⟩⟩, ⟨[], 100, [], .ok ⟨false⟩⟩, ⟨[], 100, [], .ok ⟨false⟩⟩,
         ⟨[], 100, [], .ok ⟨false⟩⟩, ⟨[], 100, [], .ok ⟨false⟩⟩] =
      ⟨initAgentState, chEmpty, List.replicate 4 (.attestCall 10 false .WAITING), .maxChecks⟩ :=
  waiting_exits_after_max_checks 7 10 10 initAgentState chEmpty
    ⟨[], 100, [], .ok ⟨false⟩⟩ ⟨[], 100, [], .ok ⟨false⟩⟩ ⟨[], 100, [], .ok ⟨false⟩⟩
    ⟨[], 100, [], .ok ⟨false⟩⟩ ⟨[], 100, [], .ok ⟨false⟩⟩ []
    (by intro o ho; simp at ho; rcases ho with rfl | rfl | rfl | rfl | rfl <;> exact ⟨rfl, rfl⟩)
    rfl


/-- C8: a node that appears at 1-based index n in the chain's
submittable-nodes list never submits the activate_subnet extrinsic at a
fetched block number below base + 10 * BLOCK_SECS * (n - 1), with base the
subnet's initialized block plus its registration blocks: every submission in
every invocation of _activate_subnet (including the fall-through retries) is
guarded by the staggered window check. -/
theorem activation_stagger :
    ∀ (account : AccountId) (fuel : Nat) (st : AgentState) (envs : List ActEnv) (n B : Nat),
    (∀ env ∈ envs, firstIdxIs env.submittable account n) →
    (∀ env ∈ envs, ∀ sd, env.subnetDataRes = some sd →
        sd.initialized + sd.registration_blocks = B) →
    ∀ b ab m, Ev.activateTx b ab m ∈ (activateSubnet account fuel st envs).evs →
      (B : Int) + (BLOCK_SECS : Int) * 10 * ((n : Int) - 1) ≤ (b : Int) := by
  intro account fuel st envs n B hidx hbase b ab m hev
  obtain ⟨env, hmem, sd, hsd, hab, hm, hb, hbound⟩ :=
    activateSubnet_stagger account fuel st envs b ab m hev
  have hB : ab = B := by rw [hab]; exact hbase env hmem sd hsd
  have hn : m = n := by
    rw [hm, countIndex_firstIdx account env.submittable n (hidx env hmem)]
  rw [hB, hn] at hbound
  exact hbound

/-- C8, witness: index-1 node, base 120, submitting at block 150. -/
theorem activation_stagger_witness :
    ((120 : Nat) : Int) + (BLOCK_SECS : Int) * 10 * (((1 : Nat) : Int) - 1) ≤ ((150 : Nat) : Int) :=
  activation_stagger 7 1 initAgentState [⟨some 1, some ⟨100, 20, 0⟩, [7], 150, ⟨0, 0, 0⟩, some ⟨true, true⟩⟩]
    1 120
    (by
      intro env he
      simp at he
      subst he
      exact ⟨rfl, le_refl 1, fun k hk => absurd hk (Nat.not_lt_zero k)⟩)
    (by
      intro env he sd hsd
      simp at he
      subst he
      cases hsd
      rfl)
    150 120 1 (by decide)


/-- C1 amended: across any sequence of consensus-loop iterations, restarts
included, and for any starting chain, the agent obtains at most one
successful validate receipt and at most one successful attest receipt per
epoch: the re-check of the chain before each submission (rewards_submission
presence for validate, its own account in attests for attest) makes a repeat
of a prior successful submission impossible, because successful submissions
persist on chain.  (Unsuccessful submissions may be retried within the
epoch; the counterexample shows two validate extrinsics for one epoch.) -/
theorem at_most_one_successful_submission :
    ∀ (account epochLength : Nat) (st : AgentState) (ch : Chain) (steps : List TStep) (e : Nat),
    validateOkCount e (runTrace account epochLength st ch steps).evs ≤ 1 ∧
    attestOkCount e (runTrace account epochLength st ch steps).evs ≤ 1 :=
  fun account epochLength st ch steps e =>
    ⟨(runTrace_validateOk account epochLength e steps st ch).2,
     (runTrace_attestOk account epochLength e steps st ch).2⟩

/-- C1 counterexample: the claim as stated (at most one validate extrinsic
per epoch in which the node is validator) fails on the code: a validate
whose receipt is unsuccessful is retried next iteration while the epoch is
unchanged and the submission is still absent, giving two validate extrinsics
for epoch 10. -/
theorem validate_retry_two_extrinsics :
    ¬ (validateTxCount 10 (runTrace 7 10 ⟨true, true, some 1, 0, none, false⟩ chEmpty
        [.iter ⟨[], 100, some 7, [], [], .ok ⟨false⟩, [], [], 0⟩,
         .iter ⟨[], 101, some 7, [], [], .ok ⟨true⟩, [], [], 0⟩]).evs ≤ 1) := by decide

end ClaimTheorems
